import Mathlib

/-!
# VelocityVerlet: oscillatory-ballistic pendulum

A shallow embedding of `position.cpp`, `velocity.cpp` and `point.cpp`.

Conventions of the embedding:

* `long double` values are real numbers; `sin`, `cos` and `sqrt` are the real
  functions, `atan2 y x` is the principal argument of `x + i*y`.
* A method that mutates its object is a function from the state before the
  call to the state after it.  The three reference parameters of
  `point::move` / `point::computeAcceleration` (`dtheta`, `alpha`, `t`) are
  caller variables, carried together with the body in a `World`.
* A C++ `throw` leaves the object as it was mutated up to the throw; an
  `Outcome` records either the state at normal return or the exception
  together with the state at the point of the throw.
* What is written to `out`, `logFile` and `std::cerr` is not part of the
  state of the body and is left out; whether `point::write` throws is kept.
* `numberOfCollisions` and the output modes are `int`s, embedded as `Int`
  (signed overflow is undefined behaviour in C++ and is not modelled).
-/

namespace VelocityVerlet

noncomputable section

/-! ## Constants (`velocityVerlet.cpp`, lines 62-63) -/

/-- The constant `PI`. The source writes it as the decimal literal
`3.14159265358979323846264338327950`, π to more digits than a `long double`
holds; as floating point is idealised to the reals, the constant is
idealised to π. -/
def PI : ℝ := Real.pi

/-- The constant `g`: `const long double g = 1;`. -/
def g : ℝ := 1

/-- The C library function `atan2(y, x)`: the angle in `(-π, π]` of the point
`(x, y)`, with `atan2(0, 0) = 0`. -/
def atan2 (y x : ℝ) : ℝ := Complex.arg ⟨x, y⟩

/-! ## Exceptions -/

/-- The three `const char*` exceptions thrown in the sources. -/
inductive Exn where
  /-- The message "Precision limit reached for the given parameters " (`velocity.cpp`). -/
  | precisionLimit
  /-- The message "The thread was broken " (`point.cpp`, line 161). -/
  | threadBroken
  /-- The message "Invalid output mode!" (`point.cpp`, line 94). -/
  | invalidOutputMode
  deriving DecidableEq

/-- Result of a call: normal return with the final state, or an exception
together with the state as mutated up to the throw. -/
inductive Outcome (σ : Type) where
  | ok (s : σ)
  | thrown (e : Exn) (s : σ)

/-- The state carried by an outcome, however the call ended. -/
def Outcome.state {σ : Type} : Outcome σ → σ
  | .ok s => s
  | .thrown _ s => s

/-- The call returned normally. -/
def Outcome.isOk {σ : Type} : Outcome σ → Bool
  | .ok _ => true
  | .thrown _ _ => false

/-- The exception of an outcome, if any. -/
def Outcome.exn {σ : Type} : Outcome σ → Option Exn
  | .ok _ => none
  | .thrown e _ => some e

/-- Sequencing of calls: an exception ends the sequence. -/
def Outcome.bind {σ τ : Type} (o : Outcome σ) (f : σ → Outcome τ) (back : σ → τ) : Outcome τ :=
  match o with
  | .ok s => f s
  | .thrown e s => .thrown e (back s)

/-! ## Data model -/

/-- Modelled from the spec: `acceleration.h` is not among the sources; the
sources only read and write the members `x` and `y` of an acceleration
sample (a vector, in the words of the spec). -/
structure acceleration where
  x : ℝ
  y : ℝ

/-- Class `velocity` (`velocity.h`). -/
structure velocity where
  x : ℝ
  y : ℝ

/-- Class `position` (`position.h`). -/
structure position where
  x : ℝ
  y : ℝ
  r : ℝ
  theta : ℝ
  omega0 : ℝ

/-- Class `point` (`point.h`); `a0`, `a1` are `a[0]`, `a[1]`. -/
structure point extends position where
  v : velocity
  a0 : acceleration
  a1 : acceleration
  T : ℝ
  mass : ℝ
  collision : Bool
  currentOutputMode : Int
  defaultOutputMode : Int
  dt : ℝ
  numberOfCollisions : Int
  lastXc : ℝ
  lastYc : ℝ

/-- A body together with the caller variables bound to the reference
parameters `dtheta`, `alpha` (called `angle` in `move`) and `t`. -/
structure World where
  p : point
  dtheta : ℝ
  alpha : ℝ
  t : ℝ

/-! ## `velocity.h` / `velocity.cpp` -/

/-- The method `velocity::mod`: `sqrt(x * x + y * y)`. -/
def velocity.mod (v : velocity) : ℝ := Real.sqrt (v.x * v.x + v.y * v.y)

/-- The method `velocity::update` (`velocity.cpp`, lines 26-30). -/
def velocity.update (v : velocity) (a0 a1 : acceleration) (dt : ℝ) : velocity :=
  { x := v.x + (a0.x + a1.x) * dt / 2
    y := v.y + (a0.y + a1.y) * dt / 2 }

/-- The local `beta` of `getTangentialComponent` (lines 36-38):
`atan2(y, x)`, plus `2 * PI` when negative. -/
def velocity.beta (v : velocity) : ℝ :=
  if atan2 v.y v.x < 0 then atan2 v.y v.x + 2 * PI else atan2 v.y v.x

/-- The method `velocity::getTangentialComponent` (`velocity.cpp`, lines 32-132).
Each quadrant test that fails, or whose inner test fails, falls through to
the next one; when none returns, the method throws. -/
def velocity.getTangentialComponent (v : velocity) (theta : ℝ) : Outcome velocity :=
  let beta := v.beta
  -- the first quadrant, case A8
  if theta ≥ 0 ∧ theta < PI / 2 ∧ (beta - 1.5 * PI) > theta then
    let v_tg := -v.mod * Real.sin (beta - theta)
    .ok { x := -v_tg * Real.sin theta, y := -v_tg * Real.cos theta }
  -- the second quadrant, cases B4 & B5
  else if theta ≥ PI / 2 ∧ theta < PI ∧ (beta > theta ∧ (beta - PI / 2) < theta) then
    let v_tg := v.mod * Real.sin (beta - theta)
    .ok { x := -v_tg * Real.sin theta, y := v_tg * Real.cos theta }
  -- the third quadrant, cases C6 & C7
  else if theta ≥ PI ∧ theta < 1.5 * PI ∧ (beta > theta ∧ (beta - PI / 2) < theta) then
    let v_tg := v.mod * Real.sin (beta - theta)
    .ok { x := -v_tg * Real.sin theta, y := v_tg * Real.cos theta }
  -- the third quadrant, case C5
  else if theta ≥ PI ∧ theta < 1.5 * PI ∧ beta < theta then
    let v_tg := -v.mod * Real.sin (beta - theta)
    .ok { x := -v_tg * Real.sin theta, y := v_tg * Real.cos theta }
  -- the fourth quadrant, cases D6 & D7
  else if theta ≥ 1.5 * PI ∧ theta ≤ 2 * PI ∧ (beta > (theta - PI / 2) ∧ beta < theta) then
    let v_tg := -v.mod * Real.sin (beta - theta)
    .ok { x := v_tg * Real.sin theta, y := -v_tg * Real.cos theta }
  else
    .thrown .precisionLimit v

/-! ## `position.cpp` -/

/-- The method `position::update` (`position.cpp`, lines 19-23): the Verlet position
update, with the newest acceleration sample `a[1]` only. -/
def position.update (s : position) (_a0 a1 : acceleration) (v : velocity) (dt : ℝ) : position :=
  { s with
    x := s.x + (v.x * dt + a1.x * dt * dt / 2)
    y := s.y + (v.y * dt + a1.y * dt * dt / 2) }

/-- The method `position::updateCartesian` (`position.cpp`, lines 25-32). -/
def position.updateCartesian (s : position) : position :=
  let theta := if s.theta < 0 then s.theta + 2 * PI else s.theta
  { s with theta := theta, x := s.r * Real.cos theta, y := s.r * Real.sin theta }

/-- The method `position::updateTheta` (`position.cpp`, lines 34-39). -/
def position.updateTheta (s : position) : position :=
  let theta := atan2 s.x (-s.y) + 1.5 * PI
  { s with theta := if theta > 2 * PI then theta - 2 * PI else theta }

/-! ## `point.cpp` -/

/-- The method `point::E` (`point.cpp`, lines 47-50): current total energy. -/
def point.E (p : point) : ℝ :=
  p.mass * g * (p.y + p.r) + p.mass * p.v.mod * p.v.mod / 2

/-- The method `point::write` (`point.cpp`, lines 52-97): a `const` method; modes `0..8`
write to `out` (not modelled), any other mode throws. -/
def point.write (p : point) (_dtheta _dt _t : ℝ) : Outcome point :=
  if 0 ≤ p.currentOutputMode ∧ p.currentOutputMode ≤ 8 then .ok p
  else .thrown .invalidOutputMode p

/-- The tension formula of `point.cpp`, lines 108 and 186. -/
def point.tensionFormula (p : point) (alpha : ℝ) : ℝ :=
  p.mass * g * (-3 * Real.sin p.theta + 2 * Real.sin alpha + p.r / g * p.omega0 * p.omega0)

/-- The method `point::reInitialize` (`point.cpp`, lines 179-192). -/
def point.reInitialize (w : World) : Outcome World :=
  -- update omega0 according to the current velocity & alpha to the current angle
  let p : point := { w.p with omega0 := w.p.v.mod / w.p.r }
  let alpha := p.theta
  -- recalculate the thread tension because omega0 was modified
  let p : point := { p with T := p.tensionFormula alpha }
  let w : World := { w with p := p, alpha := alpha }
  (p.write w.dtheta p.dt w.t).bind (fun _ => .ok w) (fun _ => w)

/-- Lines 101-120 of `point::computeAcceleration`: rotation of the samples,
resynchronisation of `theta`, the tension formula, its clamp at zero (with
the interruption of the output) and the held-slack override. `oldT`,
`delta` and `epsilon` are the locals of lines 101-103. -/
def point.tensionPhase (p : point) (alpha t : ℝ) : point :=
  let oldT := p.T
  let delta := p.v.mod * p.dt
  let epsilon := p.r - Real.sqrt (p.x * p.x + p.y * p.y)
  let p : point := { p with a0 := p.a1 }
  let p : point := { p with toposition := p.toposition.updateTheta }
  let p : point := { p with T := p.tensionFormula alpha }
  let p : point :=
    if p.T < 0 then
      { p with
        T := 0
        currentOutputMode :=
          if p.currentOutputMode = 2 ∨ p.currentOutputMode = 4 ∨ p.currentOutputMode = 10
              ∨ p.currentOutputMode = 11 then 0
          else p.currentOutputMode }
    else p
  if epsilon > delta ∧ oldT = 0 ∧ t ≠ 0 then { p with T := 0 } else p

/-- Lines 133-151 of `point::computeAcceleration`: the collision
(slack-to-taut) branch; `oldT` is the tension before the call. -/
def point.collisionPhase (oldT : ℝ) (w : World) : Outcome World :=
  if oldT = 0 ∧ w.p.T > 0 ∧ w.t ≠ 0 then
    -- update the number of collisions
    let p : point :=
      { w.p with numberOfCollisions := w.p.numberOfCollisions + 1, collision := true }
    (p.v.getTangentialComponent p.theta).bind
      (fun v =>
        -- recalculate thread tension
        (point.reInitialize { w with p := { p with v := v } }).bind
          (fun w =>
            let p : point := { w.p with lastXc := w.p.x, lastYc := w.p.y }
            let p : point :=
              if p.currentOutputMode = 0 then
                { p with currentOutputMode := p.defaultOutputMode }
              else p
            .ok { w with p := p })
          id)
      (fun v => { w with p := { p with v := v } })
  else .ok w

/-- Lines 154-158 of `point::computeAcceleration`: the correction of the raw
angle difference "for avoiding anomalies in phase space". -/
def correctDtheta (dtheta : ℝ) : ℝ :=
  let dtheta := if dtheta > 2 * PI ∨ dtheta + 1e-3 > 2 * PI then dtheta - 2 * PI else dtheta
  if -dtheta > 2 * PI ∨ -dtheta + 1e-3 > 2 * PI then dtheta + 2 * PI else dtheta

/-- Lines 153-164 of `point::computeAcceleration`: the corrected angle
difference, the string-length guard and the new acceleration sample. -/
def point.finishPhase (oldTheta : ℝ) (w : World) : Outcome World :=
  let w : World := { w with dtheta := correctDtheta (w.p.theta - oldTheta) }
  if Real.sqrt (w.p.x * w.p.x + w.p.y * w.p.y) - w.p.r > w.p.r / 10 then
    .thrown .threadBroken w
  else
    let p := w.p
    .ok { w with
          p := { p with
                 a1 := { x := (-p.T * Real.cos p.theta) / p.mass
                         y := -p.T * Real.sin p.theta / p.mass - g } } }

/-- The method `point::computeAcceleration` (`point.cpp`, lines 99-165). -/
def point.computeAcceleration (w : World) : Outcome World :=
  let oldT := w.p.T
  let oldTheta := w.p.theta
  (point.collisionPhase oldT { w with p := w.p.tensionPhase w.alpha w.t }).bind
    (point.finishPhase oldTheta) id

/-- The method `point::move` (`point.cpp`, lines 168-176): one velocity-Verlet step. -/
def point.move (w : World) : Outcome World :=
  let p : point :=
    { w.p with toposition := w.p.toposition.update w.p.a0 w.p.a1 w.p.v w.p.dt }
  (point.computeAcceleration { w with p := p }).bind
    (fun w =>
      if !w.p.collision then
        .ok { w with p := { w.p with v := w.p.v.update w.p.a0 w.p.a1 w.p.dt } }
      else
        .ok { w with p := { w.p with collision := false } })
    id

/-- Lines 19-39 of the constructor `point::point`: the member initialisers, the
launch velocity and `updateCartesian()`, together with the variables that
line 40 binds to the reference parameters of `computeAcceleration` (`alpha`
is the constructor's own copy of `angle`). `adef` is the value of a
default-constructed `acceleration`, whose header is not among the sources. -/
def point.ctorEntry (l angle omega m Dt dtheta t : ℝ) (output : Int) (adef : acceleration) :
    World :=
  let p : point :=
    { x := 0, y := 0, r := l, theta := angle, omega0 := omega
      v := { x := -omega * l * Real.sin angle, y := -omega * l * Real.cos angle }
      a0 := adef, a1 := adef
      T := 0, mass := m, collision := false
      currentOutputMode := output, defaultOutputMode := output
      dt := Dt, numberOfCollisions := 0, lastXc := 0, lastYc := 0 }
  -- Initialization for Verlet method
  { p := { p with toposition := p.toposition.updateCartesian }
    dtheta := dtheta, alpha := angle, t := t }

/-- The constructor `point::point` (`point.cpp`, lines 19-44), named `ctor` here
because `point.point` would shadow the type inside its own body. `dtheta`
and `t` are the caller variables passed by reference; `angle` is passed by
value, so the caller keeps its own `angle`, later handed to `move`. -/
def point.ctor (l angle omega m Dt dtheta t : ℝ) (output : Int) (adef : acceleration) :
    Outcome World :=
  (point.computeAcceleration (point.ctorEntry l angle omega m Dt dtheta t output adef)).bind
    (fun w =>
      let w : World := { w with alpha := angle }
      if w.p.currentOutputMode ≠ 2 then
        (w.p.write 0 w.p.dt 0).bind (fun _ => .ok w) (fun _ => w)
      else .ok w)
    (fun w => { w with alpha := angle })

/-! ## Vocabulary of the statements -/

/-- Component of a velocity along the line from the anchor to the bob,
`(cos theta, sin theta)`. -/
def velocity.radial (v : velocity) (theta : ℝ) : ℝ :=
  v.x * Real.cos theta + v.y * Real.sin theta

/-- Component of a velocity along the tangent direction
`(-sin theta, cos theta)`, perpendicular to the string. -/
def velocity.tangential (v : velocity) (theta : ℝ) : ℝ :=
  -v.x * Real.sin theta + v.y * Real.cos theta

/-- The state in which `move` calls `computeAcceleration` (after line 170):
the position advanced by the Verlet position update. -/
def World.advanced (w : World) : World :=
  { w with p := { w.p with toposition := w.p.toposition.update w.p.a0 w.p.a1 w.p.v w.p.dt } }

/-- The local `delta` of `computeAcceleration` (line 102). -/
def point.delta (p : point) : ℝ := p.v.mod * p.dt

/-- The local `epsilon` of `computeAcceleration` (line 103). -/
def point.epsilon (p : point) : ℝ := p.r - Real.sqrt (p.x * p.x + p.y * p.y)

/-- The body after lines 105-106 of `computeAcceleration`: samples rotated,
`theta` resynchronised from the Cartesian coordinates. -/
def point.resynced (p : point) : point :=
  { p with a0 := p.a1, toposition := p.toposition.updateTheta }

/-- A collision is detected by `computeAcceleration` entered in state `w`:
the previous tension is `0`, `t` is nonzero, the held-slack condition
`epsilon > delta` is false and the tension formula at the new angle is
positive. -/
def World.collisionDetected (w : World) : Prop :=
  w.p.T = 0 ∧ w.t ≠ 0 ∧ ¬ (w.p.epsilon > w.p.delta) ∧ w.p.resynced.tensionFormula w.alpha > 0

/-- The state after lines 101-120 of `computeAcceleration`. -/
def World.tensioned (w : World) : World :=
  { w with p := w.p.tensionPhase w.alpha w.t }

/-- The state in which a detected collision leaves lines 136-137: the
tension phase done, the collision counted and flagged. -/
def World.counted (w : World) : World :=
  let q := w.p.tensionPhase w.alpha w.t
  { w with p := { q with numberOfCollisions := q.numberOfCollisions + 1, collision := true } }

/-- The state of a detected collision after line 145 (the assignments of
`reInitialize`), for the projected velocity `v'`. -/
def World.reinitialized (w : World) (v' : velocity) : World :=
  let q := w.counted.p
  { w with
    alpha := q.theta
    p := { q with
           v := v'
           omega0 := v'.mod / q.r
           T := q.mass * g *
             (-3 * Real.sin q.theta + 2 * Real.sin q.theta + q.r / g * (v'.mod / q.r) * (v'.mod / q.r)) } }

/-- The state of a detected collision after line 150: collision coordinates
recorded, output mode restored. -/
def World.collided (w : World) (v' : velocity) : World :=
  let q := (w.reinitialized v').p
  { w.reinitialized v' with
    p := { q with
           lastXc := q.x
           lastYc := q.y
           currentOutputMode :=
             if q.currentOutputMode = 0 then q.defaultOutputMode else q.currentOutputMode } }

/-- The state after lines 153-164 when the guard lets the step pass: `dtheta`
stored, the new acceleration sample computed. `oldTheta` is the angle before
the call. -/
def World.sampled (w : World) (oldTheta : ℝ) : World :=
  { w with
    dtheta := correctDtheta (w.p.theta - oldTheta)
    p := { w.p with
           a1 := { x := (-w.p.T * Real.cos w.p.theta) / w.p.mass
                   y := -w.p.T * Real.sin w.p.theta / w.p.mass - g } } }

/-- Lines 172-175 of `move`: the velocity half-step, or the clearing of the
collision flag. -/
def World.finalized (w : World) : World :=
  if !w.p.collision then
    { w with p := { w.p with v := w.p.v.update w.p.a0 w.p.a1 w.p.dt } }
  else
    { w with p := { w.p with collision := false } }

/-- Distance of the bob from the origin, `sqrt(x^2 + y^2)`. -/
def point.dist (p : point) : ℝ := Real.sqrt (p.x * p.x + p.y * p.y)

/-! ## Concrete inputs -/

/-- A velocity pointing down and to the right (angle `7π/4`): met at
`theta = π/6` it falls in case A8. -/
def vA8 : velocity := { x := 1, y := -1 }

/-- A velocity pointing up and to the left: met at `theta = π/2` it falls in
case B4/B5. -/
def vB : velocity := { x := -1 / 2, y := 1 / 2 }

/-- A velocity pointing up and to the left (angle `3π/4`): met at `theta = π`
it falls in case C5. -/
def vC5 : velocity := { x := -1, y := 1 }

/-- The velocity with which the body of `wHit` meets the circle: outward
component `4/5`, tangential component `2/5`. -/
def vHit : velocity := { x := -22 / 25, y := 4 / 25 }

/-- A slack body (`T = 0`, acceleration `(0, -g)`) in free flight inside the
circle of radius `r = 1`, with `mass = 1`, `dt = 1/10`, and `alpha = 3π/2`,
`omega0 = 2` as left by a launch from the bottom with `gamma = 4`. One Verlet
position update brings it to the point `(-4/5, 3/5)` of the circle, in the
upper left quadrant, where the string re-engages. -/
def wHit : World :=
  { p := { x := -89 / 125, y := 589 / 1000, r := 1
           theta := atan2 (-89 / 125) (-(589 / 1000)) + 1.5 * PI
           omega0 := 2
           v := vHit
           a0 := { x := 0, y := -1 }, a1 := { x := 0, y := -1 }
           T := 0, mass := 1, collision := false
           currentOutputMode := 0, defaultOutputMode := 0
           dt := 1 / 10, numberOfCollisions := 0, lastXc := 0, lastYc := 0 }
    dtheta := 0, alpha := 3 / 2 * PI, t := 1 }

/-- The body of `wHit` with current and default output mode `10` and one
earlier collision (a body constructed with output mode `10` while the
tension formula is negative starts with current mode `0` and gets mode `10`
back at its first collision). -/
def wMode : World :=
  { wHit with
    p := { wHit.p with
           currentOutputMode := 10, defaultOutputMode := 10, numberOfCollisions := 1 } }

/-- A taut body at `(1, 0)` on the circle of radius `1`, moving tangentially
with speed `11`; one step of `dt = 1/10` carries it to `(199/200, 219/200)`,
farther than `r + r/10` from the origin. -/
def wBreak : World :=
  { p := { x := 1, y := 0, r := 1, theta := 2 * PI, omega0 := 11
           v := { x := 0, y := 11 }
           a0 := { x := -1, y := -1 }, a1 := { x := -1, y := -1 }
           T := 1, mass := 1, collision := false
           currentOutputMode := 0, defaultOutputMode := 0
           dt := 1 / 10, numberOfCollisions := 0, lastXc := 0, lastYc := 0 }
    dtheta := 0, alpha := 3 / 2 * PI, t := 1 }

/-- A slack body at rest at `(0, 1/2)` inside the circle of radius `1`, with
`alpha = 3π/2` and `omega0 = 2` as after a launch from the bottom; it falls
freely for one step of `dt = 1/10`. -/
def wFree : World :=
  { p := { x := 0, y := 1 / 2, r := 1, theta := PI / 2, omega0 := 2
           v := { x := 0, y := 0 }
           a0 := { x := 0, y := -1 }, a1 := { x := 0, y := -1 }
           T := 0, mass := 1, collision := false
           currentOutputMode := 0, defaultOutputMode := 0
           dt := 1 / 10, numberOfCollisions := 0, lastXc := 0, lastYc := 0 }
    dtheta := 0, alpha := 3 / 2 * PI, t := 1 }

/-- The state in which the constructor call
`point(1, 1.25 * PI, 1, 1, 0.1, dtheta = 0, t = 1, 0)` enters
`computeAcceleration`: a launch from the lower left of the circle with a
nonzero time. -/
def wCtor : World := point.ctorEntry 1 (5 / 4 * PI) 1 1 (1 / 10) 0 1 0 { x := 0, y := 0 }

/-- The bodies reached from `p0` by successful calls of `move`; before each
call the caller is free to set the variables it passes by reference. -/
inductive point.Reached (p0 : point) : point → Prop where
  | init : point.Reached p0 p0
  | step (p : point) (dtheta alpha t : ℝ) (w' : World) :
      point.Reached p0 p →
      point.move { p := p, dtheta := dtheta, alpha := alpha, t := t } = .ok w' →
      point.Reached p0 w'.p

/-- A taut body of the scenario `mass = l = g = 1`, `gamma = 3` (launched from
the bottom with `omega0 = √3`), at the rightmost point `(1, 0)` of the circle:
speed `1`, tension `T = 1`, acceleration `(-1, -1)`. It makes one step of
`dt = 1/10`. -/
def wTaut : World :=
  { p := { x := 1, y := 0, r := 1, theta := 2 * PI, omega0 := √3
           v := { x := 0, y := 1 }
           a0 := { x := -1, y := -1 }, a1 := { x := -1, y := -1 }
           T := 1, mass := 1, collision := false
           currentOutputMode := 0, defaultOutputMode := 0
           dt := 1 / 10, numberOfCollisions := 0, lastXc := 0, lastYc := 0 }
    dtheta := 0, alpha := 3 / 2 * PI, t := 1 }

/-- A slack body at rest at `(0, -1/2)`, inside the circle of radius `1` and
below its centre, with `alpha = 3π/2` and `omega0 = 2`: after one step of
`dt = 1/10` it is at `(0, -101/200)`, where the tension formula is positive
(`5`) while the bob is still `99/200` short of the circle. -/
def wHeld : World :=
  { p := { x := 0, y := -1 / 2, r := 1, theta := 3 / 2 * PI, omega0 := 2
           v := { x := 0, y := 0 }
           a0 := { x := 0, y := -1 }, a1 := { x := 0, y := -1 }
           T := 0, mass := 1, collision := false
           currentOutputMode := 0, defaultOutputMode := 0
           dt := 1 / 10, numberOfCollisions := 0, lastXc := 0, lastYc := 0 }
    dtheta := 0, alpha := 3 / 2 * PI, t := 1 }

/-- A body state with a negative time step: `T = 0`, `dt = -1/10`, at
`(1/2, 0)` inside the circle of radius `1` with velocity `(-15, 0)`, and
with acceleration samples `(0, 0)`. The position update carries it to
`(2, 0)`: `epsilon = -1 > delta = -3/2`, and the distance `2` is beyond
`r + r/10`. -/
def wBack : World :=
  { p := { x := 1 / 2, y := 0, r := 1, theta := 2 * PI, omega0 := 2
           v := { x := -15, y := 0 }
           a0 := { x := 0, y := 0 }, a1 := { x := 0, y := 0 }
           T := 0, mass := 1, collision := false
           currentOutputMode := 0, defaultOutputMode := 0
           dt := -1 / 10, numberOfCollisions := 0, lastXc := 0, lastYc := 0 }
    dtheta := 0, alpha := 3 / 2 * PI, t := 1 }

/-- The taut body of `wTaut` at `(1, 0)`, previous angle `2π`, with the smaller
time step `dt = 1e-4`: one step takes it to
`(199999999/200000000, 19999/200000000)`, just above the positive x axis,
across the jump of the angle from `2π` to `0`. -/
def wWrap : World :=
  { wTaut with p := { wTaut.p with dt := 1 / 10000 } }

/-- The slack body of `wFree` with output mode `2` (phase space), current and
default: its step finds the tension formula negative. -/
def wSuppress : World :=
  { wFree with p := { wFree.p with currentOutputMode := 2, defaultOutputMode := 2 } }

/-- The slack body of `wHit` with default output mode `2` (phase space) and
current mode `0`, as the suppression leaves it: its step is a collision. -/
def wRestore : World :=
  { wHit with p := { wHit.p with currentOutputMode := 0, defaultOutputMode := 2 } }

/-! ## Facts about `atan2`, `velocity::mod` and `beta` -/

theorem PI_pos : 0 < PI := Real.pi_pos

theorem mod_nonneg (v : velocity) : 0 ≤ v.mod := Real.sqrt_nonneg _

theorem mod_eq_abs (v : velocity) : v.mod = Complex.abs ⟨v.x, v.y⟩ := by
  simp [velocity.mod, Complex.abs_apply, Complex.normSq_apply]

theorem atan2_mem (y x : ℝ) : -PI < atan2 y x ∧ atan2 y x ≤ PI := by
  have h := Complex.arg_mem_Ioc ⟨x, y⟩
  exact ⟨h.1, h.2⟩

theorem beta_nonneg (v : velocity) : 0 ≤ v.beta := by
  have h := atan2_mem v.y v.x
  unfold velocity.beta
  split_ifs with hneg
  · linarith [h.1, PI_pos]
  · exact not_lt.mp hneg

theorem beta_lt (v : velocity) : v.beta < 2 * PI := by
  have h := atan2_mem v.y v.x
  unfold velocity.beta
  split_ifs with hneg
  · linarith
  · linarith [h.2, PI_pos]

theorem sin_beta (v : velocity) : Real.sin v.beta = Real.sin (atan2 v.y v.x) := by
  unfold velocity.beta PI
  split_ifs
  · exact Real.sin_add_two_pi _
  · rfl

theorem cos_beta (v : velocity) : Real.cos v.beta = Real.cos (atan2 v.y v.x) := by
  unfold velocity.beta PI
  split_ifs
  · exact Real.cos_add_two_pi _
  · rfl

theorem mod_mul_cos_beta (v : velocity) : v.mod * Real.cos v.beta = v.x := by
  rw [cos_beta, mod_eq_abs]
  exact Complex.abs_mul_cos_arg ⟨v.x, v.y⟩

theorem mod_mul_sin_beta (v : velocity) : v.mod * Real.sin v.beta = v.y := by
  rw [sin_beta, mod_eq_abs]
  exact Complex.abs_mul_sin_arg ⟨v.x, v.y⟩

/-- The quantity `mod() * sin(beta - theta)` of the source is the component of
the velocity along the tangent direction `(-sin theta, cos theta)`. -/
theorem mod_mul_sin_sub (v : velocity) (theta : ℝ) :
    v.mod * Real.sin (v.beta - theta) = -v.x * Real.sin theta + v.y * Real.cos theta := by
  rw [Real.sin_sub]
  have hc := mod_mul_cos_beta v
  have hs := mod_mul_sin_beta v
  calc v.mod * (Real.sin v.beta * Real.cos theta - Real.cos v.beta * Real.sin theta)
      = (v.mod * Real.sin v.beta) * Real.cos theta
          - (v.mod * Real.cos v.beta) * Real.sin theta := by ring
    _ = -v.x * Real.sin theta + v.y * Real.cos theta := by rw [hc, hs]; ring

theorem sin_beta_sub (v : velocity) (theta : ℝ) :
    Real.sin (v.beta - theta) = Real.sin (atan2 v.y v.x - theta) := by
  rw [Real.sin_sub, Real.sin_sub, sin_beta, cos_beta]

/-- The point `(rho * cos phi, rho * sin phi)` with `rho > 0` and `phi` in
`(-π, π]` has angle `phi`. -/
theorem atan2_polar {rho phi : ℝ} (hrho : 0 < rho) (h1 : -PI < phi) (h2 : phi ≤ PI) :
    atan2 (rho * Real.sin phi) (rho * Real.cos phi) = phi := by
  have h := Complex.arg_mul_cos_add_sin_mul_I hrho (Set.mem_Ioc.mpr ⟨h1, h2⟩)
  have e : (⟨rho * Real.cos phi, rho * Real.sin phi⟩ : ℂ)
      = (rho : ℂ) * (Complex.cos phi + Complex.sin phi * Complex.I) := by
    apply Complex.ext <;> simp [Complex.cos_ofReal_re, Complex.sin_ofReal_re,
      Complex.cos_ofReal_im, Complex.sin_ofReal_im]
  unfold atan2
  rw [e]
  exact h

/-- The five returning branches of `getTangentialComponent`, by their result. -/
theorem getTangentialComponent_ok {v v' : velocity} {theta : ℝ}
    (h : v.getTangentialComponent theta = .ok v') :
    (theta ≥ 0 ∧ theta < PI / 2 ∧ v.beta - 1.5 * PI > theta ∧
        v' = { x := -(-v.mod * Real.sin (v.beta - theta)) * Real.sin theta
               y := -(-v.mod * Real.sin (v.beta - theta)) * Real.cos theta }) ∨
    (theta ≥ PI / 2 ∧ theta < 1.5 * PI ∧ v.beta > theta ∧ v.beta - PI / 2 < theta ∧
        v' = { x := -(v.mod * Real.sin (v.beta - theta)) * Real.sin theta
               y := (v.mod * Real.sin (v.beta - theta)) * Real.cos theta }) ∨
    (theta ≥ PI ∧ theta < 1.5 * PI ∧ v.beta < theta ∧
        v' = { x := -(-v.mod * Real.sin (v.beta - theta)) * Real.sin theta
               y := (-v.mod * Real.sin (v.beta - theta)) * Real.cos theta }) ∨
    (theta ≥ 1.5 * PI ∧ theta ≤ 2 * PI ∧ v.beta > theta - PI / 2 ∧ v.beta < theta ∧
        v' = { x := (-v.mod * Real.sin (v.beta - theta)) * Real.sin theta
               y := -(-v.mod * Real.sin (v.beta - theta)) * Real.cos theta }) := by
  have hpi := PI_pos
  unfold velocity.getTangentialComponent at h
  simp only at h
  split_ifs at h with hA hB hC hC5 hD
  · left
    injection h with h
    exact ⟨hA.1, hA.2.1, hA.2.2, h.symm⟩
  · right; left
    injection h with h
    refine ⟨hB.1, ?_, hB.2.2.1, hB.2.2.2, h.symm⟩
    have := hB.2.1
    norm_num
    linarith
  · right; left
    injection h with h
    refine ⟨?_, hC.2.1, hC.2.2.1, hC.2.2.2, h.symm⟩
    have := hC.1
    linarith
  · right; right; left
    injection h with h
    exact ⟨hC5.1, hC5.2.1, hC5.2.2, h.symm⟩
  · right; right; right
    injection h with h
    exact ⟨hD.1, hD.2.1, hD.2.2.1, hD.2.2.2, h.symm⟩

theorem mod_of_sq (v : velocity) (c : ℝ) (h : v.x * v.x + v.y * v.y = c * c) :
    v.mod = |c| := by
  unfold velocity.mod
  rw [h]
  exact Real.sqrt_mul_self_eq_abs c

/-- After a successful projection the speed is `|mod() * sin(beta - theta)|`. -/
theorem getTangentialComponent_mod {v v' : velocity} {theta : ℝ}
    (h : v.getTangentialComponent theta = .ok v') :
    v'.mod = v.mod * |Real.sin (v.beta - theta)| := by
  have hsc := Real.sin_sq_add_cos_sq theta
  have key : v'.mod = |v.mod * Real.sin (v.beta - theta)| := by
    apply mod_of_sq
    rcases getTangentialComponent_ok h with h1 | h1 | h1 | h1
    · obtain ⟨-, -, -, rfl⟩ := h1
      simp only
      linear_combination (v.mod * Real.sin (v.beta - theta)) ^ 2 * hsc
    · obtain ⟨-, -, -, -, rfl⟩ := h1
      simp only
      linear_combination (v.mod * Real.sin (v.beta - theta)) ^ 2 * hsc
    · obtain ⟨-, -, -, rfl⟩ := h1
      simp only
      linear_combination (v.mod * Real.sin (v.beta - theta)) ^ 2 * hsc
    · obtain ⟨-, -, -, -, rfl⟩ := h1
      simp only
      linear_combination (v.mod * Real.sin (v.beta - theta)) ^ 2 * hsc
  rw [key, abs_mul, abs_of_nonneg (mod_nonneg v)]

/-- C3: whenever `getTangentialComponent(theta)` succeeds, the new speed is
`|v| * |sin(beta - theta)|` with `beta = atan2(vy, vx)`, hence at most the old
speed; and for a body of mass `>= 0` whose velocity is replaced by the
projected one (position unchanged) the energy `E()` does not increase. -/
theorem C3_projection_never_adds_energy (v v' : velocity) (theta : ℝ)
    (h : v.getTangentialComponent theta = .ok v') :
    v'.mod = v.mod * |Real.sin (atan2 v.y v.x - theta)| ∧ v'.mod ≤ v.mod ∧
      ∀ p : point, 0 ≤ p.mass → p.v = v → ({ p with v := v' } : point).E ≤ p.E := by
  have hm := getTangentialComponent_mod h
  have hle : v'.mod ≤ v.mod := by
    rw [hm]
    calc v.mod * |Real.sin (v.beta - theta)| ≤ v.mod * 1 :=
          mul_le_mul_of_nonneg_left (Real.abs_sin_le_one _) (mod_nonneg v)
      _ = v.mod := mul_one _
  refine ⟨by rw [hm, sin_beta_sub], hle, ?_⟩
  intro p hmass hv
  subst hv
  unfold point.E
  simp only
  have h0 := mod_nonneg v'
  have hsq : v'.mod * v'.mod ≤ p.v.mod * p.v.mod := mul_self_le_mul_self h0 hle
  nlinarith [mul_le_mul_of_nonneg_left hsq hmass]

/-- When `getTangentialComponent` throws, it throws the precision-limit error
and the velocity is as before. -/
theorem getTangentialComponent_thrown (v : velocity) (theta : ℝ)
    (h : (v.getTangentialComponent theta).isOk = false) :
    v.getTangentialComponent theta = .thrown .precisionLimit v := by
  revert h
  unfold velocity.getTangentialComponent
  simp only
  split_ifs <;> simp [Outcome.isOk]

/-- C5: `getTangentialComponent(theta)` throws exactly when none of the
recognised cases holds for `theta` and `beta` (`atan2(vy, vx)` brought into
`[0, 2π)`); it throws for every `theta` outside `[0, 2π]`; and when it throws
the exception is the precision-limit one and the velocity is unchanged. -/
theorem C5_geometry_exhausted (v : velocity) (theta : ℝ) :
    ((v.beta = atan2 v.y v.x ∨ v.beta = atan2 v.y v.x + 2 * PI) ∧
      0 ≤ v.beta ∧ v.beta < 2 * PI) ∧
    ((v.getTangentialComponent theta).isOk = false ↔
      ¬ ((0 ≤ theta ∧ theta < PI / 2 ∧ v.beta - 1.5 * PI > theta) ∨
         (PI / 2 ≤ theta ∧ theta < 1.5 * PI ∧ theta < v.beta ∧ v.beta < theta + PI / 2) ∨
         (PI ≤ theta ∧ theta < 1.5 * PI ∧ v.beta < theta) ∨
         (1.5 * PI ≤ theta ∧ theta ≤ 2 * PI ∧ theta - PI / 2 < v.beta ∧ v.beta < theta))) ∧
    ((theta < 0 ∨ 2 * PI < theta) → (v.getTangentialComponent theta).isOk = false) ∧
    ((v.getTangentialComponent theta).isOk = false →
      v.getTangentialComponent theta = .thrown .precisionLimit v) := by
  have hpi := PI_pos
  refine ⟨⟨?_, beta_nonneg v, beta_lt v⟩, ?_, ?_, ?_⟩
  · unfold velocity.beta
    split_ifs
    · right; rfl
    · left; rfl
  · unfold velocity.getTangentialComponent
    simp only
    split_ifs with hA hB hC hC5 hD
    · simp only [Outcome.isOk, Bool.true_eq_false, false_iff, not_not]
      exact Or.inl hA
    · simp only [Outcome.isOk, Bool.true_eq_false, false_iff, not_not]
      refine Or.inr (Or.inl ⟨hB.1, ?_, hB.2.2.1, ?_⟩)
      · have := hB.2.1
        norm_num
        linarith
      · linarith [hB.2.2.2]
    · simp only [Outcome.isOk, Bool.true_eq_false, false_iff, not_not]
      refine Or.inr (Or.inl ⟨?_, hC.2.1, hC.2.2.1, ?_⟩)
      · linarith [hC.1]
      · linarith [hC.2.2.2]
    · simp only [Outcome.isOk, Bool.true_eq_false, false_iff, not_not]
      exact Or.inr (Or.inr (Or.inl hC5))
    · simp only [Outcome.isOk, Bool.true_eq_false, false_iff, not_not]
      exact Or.inr (Or.inr (Or.inr hD))
    · simp only [Outcome.isOk, true_iff]
      rintro (h | h | h | h)
      · exact hA h
      · by_cases hlt : theta < PI
        · exact hB ⟨h.1, hlt, h.2.2.1, by linarith [h.2.2.2]⟩
        · exact hC ⟨not_lt.mp hlt, h.2.1, h.2.2.1, by linarith [h.2.2.2]⟩
      · exact hC5 h
      · exact hD h
  · intro hout
    unfold velocity.getTangentialComponent
    simp only
    rw [if_neg, if_neg, if_neg, if_neg, if_neg]
    · rfl
    all_goals
      rintro ⟨h1, h2, -⟩
      rcases hout with hout | hout
      · linarith
      · linarith
  · exact getTangentialComponent_thrown v theta

/-! ## The branches of `getTangentialComponent` in Cartesian form -/

/-- Component of `v` along the tangent direction `(-sin theta, cos theta)`. -/
theorem tangential_eq (v : velocity) (theta : ℝ) :
    v.tangential theta = v.mod * Real.sin (v.beta - theta) := by
  rw [mod_mul_sin_sub]; rfl

theorem getTangentialComponent_A8 {v : velocity} {theta : ℝ}
    (h : theta ≥ 0 ∧ theta < PI / 2 ∧ v.beta - 1.5 * PI > theta) :
    v.getTangentialComponent theta =
      .ok { x := v.tangential theta * Real.sin theta
            y := v.tangential theta * Real.cos theta } := by
  unfold velocity.getTangentialComponent
  simp only
  rw [if_pos h, tangential_eq]
  congr 2 <;> ring

theorem getTangentialComponent_B {v : velocity} {theta : ℝ}
    (h : theta ≥ PI / 2 ∧ theta < PI ∧ (v.beta > theta ∧ v.beta - PI / 2 < theta)) :
    v.getTangentialComponent theta =
      .ok { x := -v.tangential theta * Real.sin theta
            y := v.tangential theta * Real.cos theta } := by
  have hpi := PI_pos
  unfold velocity.getTangentialComponent
  simp only
  rw [if_neg (by rintro ⟨-, h2, -⟩; linarith [h.1]), if_pos h, tangential_eq]

theorem getTangentialComponent_C5 {v : velocity} {theta : ℝ}
    (h : theta ≥ PI ∧ theta < 1.5 * PI ∧ v.beta < theta) :
    v.getTangentialComponent theta =
      .ok { x := v.tangential theta * Real.sin theta
            y := -v.tangential theta * Real.cos theta } := by
  have hpi := PI_pos
  unfold velocity.getTangentialComponent
  simp only
  rw [if_neg (by rintro ⟨-, h2, -⟩; linarith [h.1]),
    if_neg (by rintro ⟨-, h2, -⟩; linarith [h.1]),
    if_neg (by rintro ⟨-, -, h3, -⟩; linarith [h.2.2]), if_pos h, tangential_eq]
  congr 2 <;> ring

/-! ## What the branches do to the radial and tangential components -/

/-- Outside case A8 (`theta >= PI / 2`) the projected velocity has no radial
component. -/
theorem radial_zero_outside_A8 {v v' : velocity} {theta : ℝ}
    (h : v.getTangentialComponent theta = .ok v') (hth : PI / 2 ≤ theta) :
    v'.radial theta = 0 := by
  rcases getTangentialComponent_ok h with h1 | h1 | h1 | h1
  · exact absurd hth (not_le.mpr h1.2.1)
  · obtain ⟨-, -, -, -, rfl⟩ := h1
    simp only [velocity.radial]
    ring
  · obtain ⟨-, -, -, rfl⟩ := h1
    simp only [velocity.radial]
    ring
  · obtain ⟨-, -, -, -, rfl⟩ := h1
    simp only [velocity.radial]
    ring

/-- In case A8 the radial component of the result is the tangential
component of the input times `sin (2 * theta)`. -/
theorem radial_A8 {v v' : velocity} {theta : ℝ}
    (h : v.getTangentialComponent theta = .ok v') (hth : theta < PI / 2) :
    v'.radial theta = v.tangential theta * Real.sin (2 * theta) := by
  have hpi := PI_pos
  rcases getTangentialComponent_ok h with h1 | h1 | h1 | h1
  · obtain ⟨-, -, -, rfl⟩ := h1
    rw [tangential_eq, Real.sin_two_mul]
    simp only [velocity.radial]
    ring
  · exact absurd hth (not_lt.mpr h1.1)
  · exact absurd hth (not_lt.mpr (by linarith [h1.1]))
  · exact absurd hth (not_lt.mpr (by linarith [h1.1]))

/-- In the cases B4/B5, C6/C7 (`theta < beta`) and D6/D7 (`theta >= 1.5 * PI`)
the tangential component is kept. -/
theorem tangential_kept {v v' : velocity} {theta : ℝ}
    (h : v.getTangentialComponent theta = .ok v')
    (hcase : (PI / 2 ≤ theta ∧ theta < v.beta) ∨ 1.5 * PI ≤ theta) :
    v'.tangential theta = v.tangential theta := by
  have hpi := PI_pos
  have hsc := Real.sin_sq_add_cos_sq theta
  rw [tangential_eq v]
  rcases getTangentialComponent_ok h with h1 | h1 | h1 | h1
  · rcases hcase with hc | hc
    · exact absurd hc.1 (not_le.mpr h1.2.1)
    · exact absurd hc (not_le.mpr (by linarith [h1.2.1]))
  · obtain ⟨-, -, -, -, rfl⟩ := h1
    simp only [velocity.tangential]
    linear_combination (v.mod * Real.sin (v.beta - theta)) * hsc
  · rcases hcase with hc | hc
    · exact absurd hc.2 (not_lt.mpr h1.2.2.1.le)
    · exact absurd hc (not_le.mpr h1.2.1)
  · obtain ⟨-, -, -, -, rfl⟩ := h1
    simp only [velocity.tangential]
    linear_combination (v.mod * Real.sin (v.beta - theta)) * hsc

/-- In case C5 the tangential component changes sign. -/
theorem tangential_C5 {v v' : velocity} {theta : ℝ}
    (h : v.getTangentialComponent theta = .ok v')
    (hcase : PI ≤ theta ∧ theta < 1.5 * PI ∧ v.beta < theta) :
    v'.tangential theta = -v.tangential theta := by
  have hsc := Real.sin_sq_add_cos_sq theta
  rw [getTangentialComponent_C5 hcase] at h
  injection h with h
  subst h
  simp only [velocity.tangential]
  linear_combination (v.x * Real.sin theta - v.y * Real.cos theta) * hsc

/-! ## `beta` at the velocities of the examples -/

theorem beta_quadrant2 {v : velocity} (hx : v.x < 0) (hy : 0 < v.y) :
    PI / 2 < v.beta ∧ v.beta < PI := by
  have h0 : ¬ atan2 v.y v.x < 0 := by
    unfold atan2
    rw [Complex.arg_neg_iff]
    simpa using hy.le
  have h1 : ¬ atan2 v.y v.x ≤ PI / 2 := by
    unfold atan2 PI
    rw [Complex.arg_le_pi_div_two_iff]
    simp only [not_or, not_le, not_lt]
    exact ⟨hx, hy.le⟩
  have h2 : atan2 v.y v.x < PI := by
    unfold atan2 PI
    rw [Complex.arg_lt_pi_iff]
    right
    simpa using hy.ne'
  unfold velocity.beta
  rw [if_neg h0]
  exact ⟨not_le.mp h1, h2⟩

theorem atan2_neg_one_one : atan2 (-1) 1 = -(PI / 4) := by
  have hpi := PI_pos
  have h := @atan2_polar (√2) (-(PI / 4)) (by positivity) (by linarith) (by linarith)
  have h2 : √2 * √2 = 2 := Real.mul_self_sqrt (by norm_num)
  have hs : √2 * Real.sin (-(PI / 4)) = -1 := by
    unfold PI
    rw [Real.sin_neg, Real.sin_pi_div_four]
    linear_combination -(1 / 2 : ℝ) * h2
  have hc : √2 * Real.cos (-(PI / 4)) = 1 := by
    unfold PI
    rw [Real.cos_neg, Real.cos_pi_div_four]
    linear_combination (1 / 2 : ℝ) * h2
  rw [hs, hc] at h
  exact h

theorem beta_vA8 : vA8.beta = 7 / 4 * PI := by
  have hpi := PI_pos
  unfold velocity.beta vA8
  simp only
  rw [atan2_neg_one_one, if_pos (by linarith)]
  ring

theorem getTangentialComponent_vA8 :
    vA8.getTangentialComponent (PI / 6) =
      .ok { x := -(1 + √3) / 4, y := -(3 + √3) / 4 } := by
  have hpi := PI_pos
  have h3 : √3 * √3 = 3 := Real.mul_self_sqrt (by norm_num)
  rw [getTangentialComponent_A8 ⟨by linarith, by linarith, by rw [beta_vA8]; linarith⟩]
  have ht : vA8.tangential (PI / 6) = -(1 + √3) / 2 := by
    simp only [velocity.tangential, vA8, PI, Real.sin_pi_div_six, Real.cos_pi_div_six]
    ring
  rw [ht]
  simp only [PI, Real.sin_pi_div_six, Real.cos_pi_div_six]
  congr 2
  · ring
  · linear_combination (-(1 / 4 : ℝ)) * h3

theorem getTangentialComponent_vB :
    vB.getTangentialComponent (PI / 2) = .ok { x := -1 / 2, y := 0 } := by
  have hpi := PI_pos
  have hb := @beta_quadrant2 vB (by norm_num [vB]) (by norm_num [vB])
  rw [getTangentialComponent_B ⟨le_refl _, by linarith, hb.1, by linarith [hb.2]⟩]
  simp [velocity.tangential, vB, PI]

theorem getTangentialComponent_vC5 :
    vC5.getTangentialComponent PI = .ok { x := 0, y := -1 } := by
  have hpi := PI_pos
  have hb := @beta_quadrant2 vC5 (by norm_num [vC5]) (by norm_num [vC5])
  rw [getTangentialComponent_C5 ⟨le_refl _, by linarith, hb.2⟩]
  simp [velocity.tangential, vC5, PI]

/-- C2 (failing input): in case A8 the projected velocity is not tangential.
For the velocity `(1, -1)` and `theta = π/6` the call succeeds and the result
has radial component `-(3 + √3)/4`, not zero. -/
theorem C2_A8_result_not_tangential :
    vA8.getTangentialComponent (PI / 6) = .ok { x := -(1 + √3) / 4, y := -(3 + √3) / 4 } ∧
      ({ x := -(1 + √3) / 4, y := -(3 + √3) / 4 } : velocity).radial (PI / 6)
        = -(3 + √3) / 4 ∧
      ({ x := -(1 + √3) / 4, y := -(3 + √3) / 4 } : velocity).radial (PI / 6) ≠ 0 := by
  have h3 : √3 * √3 = 3 := Real.mul_self_sqrt (by norm_num)
  have h3pos : (0 : ℝ) ≤ √3 := Real.sqrt_nonneg 3
  have hr : ({ x := -(1 + √3) / 4, y := -(3 + √3) / 4 } : velocity).radial (PI / 6)
      = -(3 + √3) / 4 := by
    simp only [velocity.radial, PI, Real.sin_pi_div_six, Real.cos_pi_div_six]
    linear_combination (-(1 / 8 : ℝ)) * h3
  refine ⟨getTangentialComponent_vA8, hr, ?_⟩
  rw [hr]
  intro h
  linarith

/-- C3 (witness): the velocity `(-1/2, 1/2)` projected at `theta = π/2`. -/
theorem C3_projection_never_adds_energy_witness :
    vB.getTangentialComponent (PI / 2) = .ok { x := -1 / 2, y := 0 } ∧
      (({ x := -1 / 2, y := 0 } : velocity).mod
          = vB.mod * |Real.sin (atan2 vB.y vB.x - PI / 2)| ∧
        ({ x := -1 / 2, y := 0 } : velocity).mod ≤ vB.mod ∧
        ∀ p : point, 0 ≤ p.mass → p.v = vB →
          ({ p with v := { x := -1 / 2, y := 0 } } : point).E ≤ p.E) :=
  ⟨getTangentialComponent_vB,
    C3_projection_never_adds_energy vB { x := -1 / 2, y := 0 } (PI / 2)
      getTangentialComponent_vB⟩

/-- C4 (failing input): in case C5 the sense of rotation is reversed. For
the velocity `(-1, 1)` and `theta = π` the call succeeds with `(0, -1)`: the
tangential component was `-1` and is `1` afterwards. -/
theorem C4_C5_reverses_rotation :
    vC5.getTangentialComponent PI = .ok { x := 0, y := -1 } ∧
      vC5.tangential PI = -1 ∧
      ({ x := 0, y := -1 } : velocity).tangential PI = 1 ∧
      ({ x := 0, y := -1 } : velocity).tangential PI ≠ vC5.tangential PI := by
  have h1 : vC5.tangential PI = -1 := by simp [velocity.tangential, vC5, PI]
  have h2 : ({ x := 0, y := -1 } : velocity).tangential PI = 1 := by
    simp [velocity.tangential, PI]
  refine ⟨getTangentialComponent_vC5, h1, h2, ?_⟩
  rw [h1, h2]
  norm_num

/-- C5 (witness): at `theta = -1` the call throws and leaves `(1, 0)` as it was. -/
theorem C5_geometry_exhausted_witness :
    ({ x := 1, y := 0 } : velocity).getTangentialComponent (-1)
      = .thrown .precisionLimit { x := 1, y := 0 } :=
  (C5_geometry_exhausted { x := 1, y := 0 } (-1)).2.2.2
    ((C5_geometry_exhausted { x := 1, y := 0 } (-1)).2.2.1 (Or.inl (by norm_num)))

/-! ## The phases of `computeAcceleration` -/

/-- The tension stored by lines 101-120. -/
theorem tensionPhase_eq (p : point) (alpha t : ℝ) :
    p.tensionPhase alpha t =
      { p.resynced with
        T := if p.epsilon > p.delta ∧ p.T = 0 ∧ t ≠ 0 then 0
             else if p.resynced.tensionFormula alpha < 0 then 0
             else p.resynced.tensionFormula alpha
        currentOutputMode :=
          if p.resynced.tensionFormula alpha < 0 then
            (if p.currentOutputMode = 2 ∨ p.currentOutputMode = 4 ∨ p.currentOutputMode = 10
                ∨ p.currentOutputMode = 11 then 0 else p.currentOutputMode)
          else p.currentOutputMode } := by
  unfold point.tensionPhase point.resynced point.epsilon point.delta point.tensionFormula
  simp only
  split_ifs <;> rfl

theorem tensionPhase_T_nonneg (p : point) (alpha t : ℝ) : 0 ≤ (p.tensionPhase alpha t).T := by
  rw [tensionPhase_eq]
  simp only
  split_ifs with h1 h2
  · exact le_refl _
  · exact le_refl _
  · exact not_lt.mp h2

/-- The test of line 133 is the detection of a collision. -/
theorem detected_iff (w : World) :
    (w.p.T = 0 ∧ (w.p.tensionPhase w.alpha w.t).T > 0 ∧ w.t ≠ 0) ↔ w.collisionDetected := by
  rw [tensionPhase_eq]
  unfold World.collisionDetected
  simp only
  constructor
  · rintro ⟨h0, hT, ht⟩
    split_ifs at hT with h1 h2
    · exact absurd hT (lt_irrefl _)
    · exact absurd hT (lt_irrefl _)
    · exact ⟨h0, ht, fun h => h1 ⟨h, h0, ht⟩, hT⟩
  · rintro ⟨h0, ht, he, hT⟩
    refine ⟨h0, ?_, ht⟩
    rw [if_neg (fun h => he h.1), if_neg (not_lt.mpr hT.le)]
    exact hT

theorem reInitialize_eq (w : World) (v' : velocity) :
    point.reInitialize { w.counted with p := { w.counted.p with v := v' } } =
      if 0 ≤ w.counted.p.currentOutputMode ∧ w.counted.p.currentOutputMode ≤ 8 then
        .ok (w.reinitialized v')
      else .thrown .invalidOutputMode (w.reinitialized v') := by
  unfold point.reInitialize point.write World.reinitialized point.tensionFormula
  simp only
  split_ifs <;> rfl

/-- The four ways through lines 101-151 of `computeAcceleration`. -/
theorem computeAcceleration_cases (w : World) :
    (¬ w.collisionDetected ∧
      point.computeAcceleration w =
        point.finishPhase w.p.theta { w with p := w.p.tensionPhase w.alpha w.t }) ∨
    (w.collisionDetected ∧
      w.p.v.getTangentialComponent w.p.resynced.theta = .thrown .precisionLimit w.p.v ∧
      point.computeAcceleration w = .thrown .precisionLimit w.counted) ∨
    (w.collisionDetected ∧ ∃ v', w.p.v.getTangentialComponent w.p.resynced.theta = .ok v' ∧
      ¬ (0 ≤ w.p.currentOutputMode ∧ w.p.currentOutputMode ≤ 8) ∧
      point.computeAcceleration w = .thrown .invalidOutputMode (w.reinitialized v')) ∨
    (w.collisionDetected ∧ ∃ v', w.p.v.getTangentialComponent w.p.resynced.theta = .ok v' ∧
      (0 ≤ w.p.currentOutputMode ∧ w.p.currentOutputMode ≤ 8) ∧
      point.computeAcceleration w = point.finishPhase w.p.theta (w.collided v')) := by
  by_cases hd : w.collisionDetected
  · have hd' := (detected_iff w).mpr hd
    have hmode : w.counted.p.currentOutputMode = w.p.currentOutputMode := by
      unfold World.counted
      rw [tensionPhase_eq]
      simp only
      rw [if_neg (not_lt.mpr hd.2.2.2.le)]
    have htheta : w.counted.p.theta = w.p.resynced.theta := by
      unfold World.counted
      rw [tensionPhase_eq]
    have hv : w.counted.p.v = w.p.v := by
      unfold World.counted
      rw [tensionPhase_eq]
      rfl
    have hstart : point.computeAcceleration w =
        ((w.p.v.getTangentialComponent w.p.resynced.theta).bind
          (fun v =>
            (point.reInitialize { w.counted with p := { w.counted.p with v := v } }).bind
              (fun w =>
                let p : point := { w.p with lastXc := w.p.x, lastYc := w.p.y }
                let p : point :=
                  if p.currentOutputMode = 0 then
                    { p with currentOutputMode := p.defaultOutputMode }
                  else p
                .ok { w with p := p })
              id)
          (fun v => { w.counted with p := { w.counted.p with v := v } })).bind
            (point.finishPhase w.p.theta) id := by
      unfold point.computeAcceleration point.collisionPhase
      simp only
      rw [if_pos hd', ← htheta, ← hv]
      rfl
    right
    rcases hres : w.p.v.getTangentialComponent w.p.resynced.theta with v' | ⟨e, v'⟩
    · right
      rw [hres] at hstart
      by_cases hm : 0 ≤ w.p.currentOutputMode ∧ w.p.currentOutputMode ≤ 8
      · right
        refine ⟨hd, v', rfl, hm, ?_⟩
        rw [hstart]
        simp only [Outcome.bind]
        rw [reInitialize_eq, if_pos (by rw [hmode]; exact hm)]
        simp only
        unfold World.collided
        simp only
        split_ifs <;> rfl
      · left
        refine ⟨hd, v', rfl, hm, ?_⟩
        rw [hstart]
        simp only [Outcome.bind]
        rw [reInitialize_eq, if_neg (by rw [hmode]; exact hm)]
        rfl
    · left
      have hthrow := getTangentialComponent_thrown w.p.v w.p.resynced.theta
        (by rw [hres]; rfl)
      rw [hres] at hthrow
      injection hthrow with he hv'
      subst he hv'
      refine ⟨hd, rfl, ?_⟩
      rw [hstart, hres]
      simp only [Outcome.bind, id]
      congr 1
      rw [← hv]
  · left
    refine ⟨hd, ?_⟩
    have hd' := fun h => hd ((detected_iff w).mp h)
    unfold point.computeAcceleration point.collisionPhase
    simp only
    rw [if_neg hd']
    rfl

/-! ## `move` -/

theorem move_eq (w : World) :
    point.move w =
      (point.computeAcceleration w.advanced).bind (fun w => .ok w.finalized) id := by
  unfold point.move World.finalized World.advanced
  simp only
  congr 1
  funext w2
  split_ifs <;> rfl

/-- Lines 160-164: the guard decides between the throw and the new sample. -/
theorem finishPhase_eq (oldTheta : ℝ) (w : World) :
    point.finishPhase oldTheta w =
      if w.p.dist > w.p.r + w.p.r / 10 then
        .thrown .threadBroken { w with dtheta := correctDtheta (w.p.theta - oldTheta) }
      else .ok (w.sampled oldTheta) := by
  unfold point.finishPhase point.dist World.sampled
  simp only
  by_cases h : Real.sqrt (w.p.x * w.p.x + w.p.y * w.p.y) - w.p.r > w.p.r / 10
  · rw [if_pos h, if_pos (by linarith)]
  · rw [if_neg h, if_neg (by intro h'; exact h (by linarith))]

theorem tensionPhase_dist (p : point) (alpha t : ℝ) :
    (p.tensionPhase alpha t).dist = p.dist ∧ (p.tensionPhase alpha t).r = p.r := by
  rw [tensionPhase_eq]
  exact ⟨rfl, rfl⟩

theorem collided_dist (w : World) (v' : velocity) :
    (w.collided v').p.dist = w.p.dist ∧ (w.collided v').p.r = w.p.r := by
  unfold World.collided World.reinitialized World.counted
  simp only
  rw [tensionPhase_eq]
  exact ⟨rfl, rfl⟩

/-- Once lines 101-151 are passed, `move` throws the broken-thread error or
returns, as the guard says. -/
theorem move_of_finish {w w2 : World} {oldTheta : ℝ}
    (h : point.computeAcceleration w.advanced = point.finishPhase oldTheta w2) :
    ((point.move w).exn = some .threadBroken ↔ w2.p.dist > w2.p.r + w2.p.r / 10) ∧
      ((point.move w).isOk = true ↔ ¬ w2.p.dist > w2.p.r + w2.p.r / 10) ∧
      (point.move w).exn ≠ some .precisionLimit ∧
      (point.move w).exn ≠ some .invalidOutputMode := by
  rw [move_eq, h, finishPhase_eq]
  by_cases hg : w2.p.dist > w2.p.r + w2.p.r / 10
  · rw [if_pos hg]
    simp [Outcome.bind, Outcome.exn, Outcome.isOk, hg]
  · rw [if_neg hg]
    simp [Outcome.bind, Outcome.exn, Outcome.isOk, hg]

/-- C6 (amended): a call of `move` in which neither the tangential projection
nor the write of a collision step fails throws the broken-thread error if
and only if, after the Verlet position update, the distance from the origin
exceeds `r + r/10`; when the distance is at most `r + r/10` the step
completes. -/
theorem C6_string_length_guard (w : World)
    (hproj : (point.move w).exn ≠ some .precisionLimit)
    (hwrite : (point.move w).exn ≠ some .invalidOutputMode) :
    ((point.move w).exn = some .threadBroken ↔
        w.advanced.p.dist > w.p.r + w.p.r / 10) ∧
      (w.advanced.p.dist ≤ w.p.r + w.p.r / 10 → (point.move w).isOk = true) := by
  have hr : w.advanced.p.r = w.p.r := rfl
  rcases computeAcceleration_cases w.advanced with
    ⟨-, h⟩ | ⟨-, -, h⟩ | ⟨-, v', -, -, h⟩ | ⟨-, v', -, -, h⟩
  · have hm := move_of_finish h
    simp only [(tensionPhase_dist _ _ _).1, (tensionPhase_dist _ _ _).2, hr] at hm
    exact ⟨hm.1, fun hle => hm.2.1.mpr (not_lt.mpr hle)⟩
  · exact absurd (by rw [move_eq, h]; rfl) hproj
  · exact absurd (by rw [move_eq, h]; rfl) hwrite
  · have hm := move_of_finish h
    simp only [(collided_dist _ _).1, (collided_dist _ _).2, hr] at hm
    exact ⟨hm.1, fun hle => hm.2.1.mpr (not_lt.mpr hle)⟩

/-- The four ways through `move`, with the state each of them ends in. The
guard of line 160 is read at the advanced position. -/
theorem move_cases (w : World) :
    (¬ w.advanced.collisionDetected ∧
      point.move w =
        if w.advanced.p.dist > w.p.r + w.p.r / 10 then
          .thrown .threadBroken
            { w.advanced.tensioned with
              dtheta := correctDtheta (w.advanced.tensioned.p.theta - w.p.theta) }
        else .ok (w.advanced.tensioned.sampled w.p.theta).finalized) ∨
    (w.advanced.collisionDetected ∧
      w.p.v.getTangentialComponent w.advanced.p.resynced.theta
        = .thrown .precisionLimit w.p.v ∧
      point.move w = .thrown .precisionLimit w.advanced.counted) ∨
    (w.advanced.collisionDetected ∧
      ∃ v', w.p.v.getTangentialComponent w.advanced.p.resynced.theta = .ok v' ∧
        ¬ (0 ≤ w.p.currentOutputMode ∧ w.p.currentOutputMode ≤ 8) ∧
        point.move w = .thrown .invalidOutputMode (w.advanced.reinitialized v')) ∨
    (w.advanced.collisionDetected ∧
      ∃ v', w.p.v.getTangentialComponent w.advanced.p.resynced.theta = .ok v' ∧
        (0 ≤ w.p.currentOutputMode ∧ w.p.currentOutputMode ≤ 8) ∧
        point.move w =
          if w.advanced.p.dist > w.p.r + w.p.r / 10 then
            .thrown .threadBroken
              { w.advanced.collided v' with
                dtheta := correctDtheta ((w.advanced.collided v').p.theta - w.p.theta) }
          else .ok ((w.advanced.collided v').sampled w.p.theta).finalized) := by
  have hr : w.advanced.p.r = w.p.r := rfl
  have hth : w.advanced.p.theta = w.p.theta := rfl
  have hv : w.advanced.p.v = w.p.v := rfl
  have hmode : w.advanced.p.currentOutputMode = w.p.currentOutputMode := rfl
  rcases computeAcceleration_cases w.advanced with
    ⟨hd, h⟩ | ⟨hd, hp, h⟩ | ⟨hd, v', hp, hm, h⟩ | ⟨hd, v', hp, hm, h⟩
  · left
    refine ⟨hd, ?_⟩
    rw [move_eq, h, finishPhase_eq, hth]
    have e1 : ({ w.advanced with p := w.advanced.p.tensionPhase w.advanced.alpha w.advanced.t }
        : World) = w.advanced.tensioned := rfl
    rw [e1]
    have e2 : w.advanced.tensioned.p.dist = w.advanced.p.dist :=
      (tensionPhase_dist _ _ _).1
    have e3 : w.advanced.tensioned.p.r = w.p.r := (tensionPhase_dist _ _ _).2
    rw [e2, e3]
    split_ifs <;> rfl
  · right; left
    refine ⟨hd, hp, ?_⟩
    rw [move_eq, h]
    rfl
  · right; right; left
    refine ⟨hd, v', hp, hm, ?_⟩
    rw [move_eq, h]
    rfl
  · right; right; right
    refine ⟨hd, v', hp, hm, ?_⟩
    rw [move_eq, h, finishPhase_eq, hth, (collided_dist _ _).1, (collided_dist _ _).2, hr]
    split_ifs <;> rfl

/-- A successful `move` went one of two ways. -/
theorem move_ok_cases {w w' : World} (h : point.move w = .ok w') :
    (¬ w.advanced.collisionDetected ∧
      w' = (w.advanced.tensioned.sampled w.p.theta).finalized) ∨
    (w.advanced.collisionDetected ∧
      ∃ v', w.p.v.getTangentialComponent w.advanced.p.resynced.theta = .ok v' ∧
        w' = ((w.advanced.collided v').sampled w.p.theta).finalized) := by
  rcases move_cases w with ⟨hd, hm⟩ | ⟨-, -, hm⟩ | ⟨-, v', -, -, hm⟩ | ⟨hd, v', hp, -, hm⟩
  · left
    rw [hm] at h
    split_ifs at h
    injection h with h
    exact ⟨hd, h.symm⟩
  · rw [hm] at h
    exact Outcome.noConfusion h
  · rw [hm] at h
    exact Outcome.noConfusion h
  · right
    rw [hm] at h
    split_ifs at h
    injection h with h
    exact ⟨hd, v', hp, h.symm⟩

theorem finalized_of_collision {w : World} (h : w.p.collision = true) :
    w.finalized = { w with p := { w.p with collision := false } } := by
  unfold World.finalized
  simp [h]

/-- C9: after a successful `move` in which a collision is detected (previous
`T = 0`, `t != 0`, held-slack condition false, tension formula `> 0`), the
velocity is the result of `getTangentialComponent(theta)` on the velocity
before the step, `omega0 = |v'| / r`, the caller's `alpha` is the current
`theta`, `T` is the tension formula at these refreshed values,
`lastXc = x`, `lastYc = y` and the collision flag is false. -/
theorem C9_collision_step (w w' : World) (hmove : point.move w = .ok w')
    (hd : w.advanced.collisionDetected) :
    w.p.v.getTangentialComponent w'.p.theta = .ok w'.p.v ∧
      w'.p.omega0 = w'.p.v.mod / w'.p.r ∧
      w'.alpha = w'.p.theta ∧
      w'.p.T = w'.p.mass * g *
        (-3 * Real.sin w'.p.theta + 2 * Real.sin w'.alpha
          + w'.p.r / g * w'.p.omega0 * w'.p.omega0) ∧
      w'.p.lastXc = w'.p.x ∧ w'.p.lastYc = w'.p.y ∧ w'.p.collision = false := by
  rcases move_ok_cases hmove with ⟨hnd, -⟩ | ⟨-, v', hp, rfl⟩
  · exact absurd hd hnd
  · rw [finalized_of_collision (by rfl)]
    have hth : (w.advanced.collided v').p.theta = w.advanced.p.resynced.theta := by
      unfold World.collided World.reinitialized World.counted
      simp only
      rw [tensionPhase_eq]
    refine ⟨?_, rfl, rfl, rfl, rfl, rfl, rfl⟩
    show w.p.v.getTangentialComponent (w.advanced.collided v').p.theta = .ok v'
    rw [hth]
    exact hp

/-- C10 (amended): after a successful `move` the collision count is the
previous one or the previous one plus one, and it is the previous one plus
one exactly when a collision is detected (previous tension `0`, `t`
nonzero, held-slack condition false, tension formula at the new angle
positive); a constructor call with `t = 0` that returns leaves the count
at `0`. -/
theorem C10_collision_count (w w' : World) (hmove : point.move w = .ok w') :
    (w'.p.numberOfCollisions = w.p.numberOfCollisions ∨
        w'.p.numberOfCollisions = w.p.numberOfCollisions + 1) ∧
      (w'.p.numberOfCollisions = w.p.numberOfCollisions + 1 ↔
        (w.p.T = 0 ∧ w.t ≠ 0 ∧ ¬ (w.advanced.p.epsilon > w.p.delta) ∧
          w.advanced.p.resynced.tensionFormula w.alpha > 0)) ∧
      (∀ (l angle omega m Dt dtheta : ℝ) (output : Int) (adef : acceleration) (c : World),
        point.ctor l angle omega m Dt dtheta 0 output adef = .ok c →
          c.p.numberOfCollisions = 0) := by
  have hdet : w.advanced.collisionDetected ↔
      (w.p.T = 0 ∧ w.t ≠ 0 ∧ ¬ (w.advanced.p.epsilon > w.p.delta) ∧
        w.advanced.p.resynced.tensionFormula w.alpha > 0) := Iff.rfl
  rw [← hdet]
  have hcount : ∀ u : World, u.tensioned.p.numberOfCollisions = u.p.numberOfCollisions := by
    intro u
    unfold World.tensioned
    rw [tensionPhase_eq]
    rfl
  refine ⟨?_, ?_, ?_⟩
  · rcases move_ok_cases hmove with ⟨-, rfl⟩ | ⟨-, v', -, rfl⟩
    · left
      have := hcount w.advanced
      unfold World.finalized
      split_ifs <;> exact this
    · right
      rw [finalized_of_collision (by rfl)]
      have := hcount w.advanced
      show w.advanced.tensioned.p.numberOfCollisions + 1 = _
      rw [this]
      rfl
  · rcases move_ok_cases hmove with ⟨hnd, rfl⟩ | ⟨hd, v', -, rfl⟩
    · have h1 : (w.advanced.tensioned.sampled w.p.theta).finalized.p.numberOfCollisions
          = w.p.numberOfCollisions := by
        have := hcount w.advanced
        unfold World.finalized
        split_ifs <;> exact this
      rw [h1]
      constructor
      · intro h
        omega
      · intro h
        exact absurd h hnd
    · constructor
      · intro _
        exact hd
      · intro _
        rw [finalized_of_collision (by rfl)]
        have := hcount w.advanced
        show w.advanced.tensioned.p.numberOfCollisions + 1 = _
        rw [this]
        rfl
  · intro l angle omega m Dt dtheta output adef c hc
    unfold point.ctor at hc
    generalize hu : point.ctorEntry l angle omega m Dt dtheta 0 output adef = u at hc
    have hu0 : u.p.numberOfCollisions = 0 := by rw [← hu]; rfl
    have hut : u.t = 0 := by rw [← hu]; rfl
    have hnd : ¬ u.collisionDetected := fun h => h.2.1 hut
    rcases computeAcceleration_cases u with ⟨-, h⟩ | ⟨hd, -⟩ | ⟨hd, -⟩ | ⟨hd, -⟩
    · rw [h, finishPhase_eq] at hc
      split_ifs at hc with hg
      · exact Outcome.noConfusion hc
      · simp only [Outcome.bind] at hc
        have hs : (({ u with p := u.p.tensionPhase u.alpha u.t } : World).sampled
            u.p.theta).p.numberOfCollisions = 0 := by
          have := hcount u
          rw [← hu0]
          exact this
        split_ifs at hc
        · unfold point.write at hc
          split_ifs at hc
          simp only [Outcome.bind] at hc
          injection hc with hc
          rw [← hc]
          exact hs
        · injection hc with hc
          rw [← hc]
          exact hs
    · exact absurd hd hnd
    · exact absurd hd hnd
    · exact absurd hd hnd

/-- A successful `move` is a successful `computeAcceleration` at the advanced
position followed by lines 172-175. -/
theorem move_ok_iff (w w' : World) :
    point.move w = .ok w' ↔
      ∃ w2, point.computeAcceleration w.advanced = .ok w2 ∧ w' = w2.finalized := by
  rw [move_eq]
  rcases hc : point.computeAcceleration w.advanced with w2 | ⟨e, w2⟩
  · simp only [Outcome.bind]
    constructor
    · intro h
      injection h with h
      exact ⟨w2, rfl, h.symm⟩
    · rintro ⟨w3, h3, rfl⟩
      injection h3 with h3
      rw [h3]
  · simp only [Outcome.bind]
    constructor
    · intro h
      exact Outcome.noConfusion h
    · rintro ⟨w3, h3, -⟩
      exact Outcome.noConfusion h3

theorem computeAcceleration_ok_cases {u u2 : World}
    (h : point.computeAcceleration u = .ok u2) :
    (¬ u.collisionDetected ∧ u2 = u.tensioned.sampled u.p.theta) ∨
    (u.collisionDetected ∧
      ∃ v', u.p.v.getTangentialComponent u.p.resynced.theta = .ok v' ∧
        u2 = (u.collided v').sampled u.p.theta) := by
  rcases computeAcceleration_cases u with
    ⟨hd, hm⟩ | ⟨-, -, hm⟩ | ⟨-, v', -, -, hm⟩ | ⟨hd, v', hp, -, hm⟩
  · left
    rw [hm, finishPhase_eq] at h
    split_ifs at h
    injection h with h
    exact ⟨hd, h.symm⟩
  · rw [hm] at h
    exact Outcome.noConfusion h
  · rw [hm] at h
    exact Outcome.noConfusion h
  · right
    rw [hm, finishPhase_eq] at h
    split_ifs at h
    injection h with h
    exact ⟨hd, v', hp, h.symm⟩

theorem move_collision_eq {w : World} {v' : velocity} (hd : w.advanced.collisionDetected)
    (hp : w.p.v.getTangentialComponent w.advanced.p.resynced.theta = .ok v')
    (hm : 0 ≤ w.p.currentOutputMode ∧ w.p.currentOutputMode ≤ 8)
    (hg : ¬ w.advanced.p.dist > w.p.r + w.p.r / 10) :
    point.move w = .ok ((w.advanced.collided v').sampled w.p.theta).finalized := by
  rcases move_cases w with ⟨hnd, -⟩ | ⟨-, hp', -⟩ | ⟨-, v'', -, hm', -⟩ | ⟨-, v'', hp', -, h⟩
  · exact absurd hd hnd
  · rw [hp] at hp'
    exact Outcome.noConfusion hp'
  · exact absurd hm hm'
  · rw [hp] at hp'
    injection hp' with hp'
    subst hp'
    rw [h, if_neg hg]

theorem move_collision_invalid_mode {w : World} {v' : velocity}
    (hd : w.advanced.collisionDetected)
    (hp : w.p.v.getTangentialComponent w.advanced.p.resynced.theta = .ok v')
    (hm : ¬ (0 ≤ w.p.currentOutputMode ∧ w.p.currentOutputMode ≤ 8)) :
    point.move w = .thrown .invalidOutputMode (w.advanced.reinitialized v') := by
  rcases move_cases w with ⟨hnd, -⟩ | ⟨-, hp', -⟩ | ⟨-, v'', hp', -, h⟩ | ⟨-, v'', -, hm', -⟩
  · exact absurd hd hnd
  · rw [hp] at hp'
    exact Outcome.noConfusion hp'
  · rw [hp] at hp'
    injection hp' with hp'
    subst hp'
    exact h
  · exact absurd hm' hm

theorem move_no_collision_eq {w : World} (hnd : ¬ w.advanced.collisionDetected) :
    point.move w =
      if w.advanced.p.dist > w.p.r + w.p.r / 10 then
        .thrown .threadBroken
          { w.advanced.tensioned with
            dtheta := correctDtheta (w.advanced.tensioned.p.theta - w.p.theta) }
      else .ok (w.advanced.tensioned.sampled w.p.theta).finalized := by
  rcases move_cases w with ⟨-, h⟩ | ⟨hd, -⟩ | ⟨hd, -⟩ | ⟨hd, -⟩
  · exact h
  · exact absurd hd hnd
  · exact absurd hd hnd
  · exact absurd hd hnd

/-! ## The angle after `updateTheta` -/

/-- After `updateTheta` the angle is the polar angle of `(x, y)`. -/
theorem updateTheta_polar (s : position) :
    Real.sqrt (s.x * s.x + s.y * s.y) * Real.cos s.updateTheta.theta = s.x ∧
      Real.sqrt (s.x * s.x + s.y * s.y) * Real.sin s.updateTheta.theta = s.y := by
  have habs : Real.sqrt (s.x * s.x + s.y * s.y) = Complex.abs ⟨-s.y, s.x⟩ := by
    rw [Complex.abs_apply, Complex.normSq_apply]
    congr 1
    ring
  have hc := Complex.abs_mul_cos_arg ⟨-s.y, s.x⟩
  have hs := Complex.abs_mul_sin_arg ⟨-s.y, s.x⟩
  simp only at hc hs
  have e1 : Real.cos (atan2 s.x (-s.y) + 1.5 * PI) = Real.sin (atan2 s.x (-s.y)) := by
    have : atan2 s.x (-s.y) + 1.5 * PI = atan2 s.x (-s.y) - Real.pi / 2 + 2 * Real.pi := by
      unfold PI
      ring
    rw [this, Real.cos_add_two_pi, Real.cos_sub_pi_div_two]
  have e2 : Real.sin (atan2 s.x (-s.y) + 1.5 * PI) = -Real.cos (atan2 s.x (-s.y)) := by
    have : atan2 s.x (-s.y) + 1.5 * PI = atan2 s.x (-s.y) - Real.pi / 2 + 2 * Real.pi := by
      unfold PI
      ring
    rw [this, Real.sin_add_two_pi, Real.sin_sub_pi_div_two]
  have e3 : Real.cos (atan2 s.x (-s.y) + 1.5 * PI - 2 * PI)
      = Real.sin (atan2 s.x (-s.y)) := by
    unfold PI
    rw [Real.cos_sub_two_pi]
    exact e1
  have e4 : Real.sin (atan2 s.x (-s.y) + 1.5 * PI - 2 * PI)
      = -Real.cos (atan2 s.x (-s.y)) := by
    unfold PI
    rw [Real.sin_sub_two_pi]
    exact e2
  unfold position.updateTheta
  simp only
  rw [habs]
  split_ifs
  · rw [e3, e4]
    unfold atan2
    constructor
    · exact hs
    · linarith
  · rw [e1, e2]
    unfold atan2
    constructor
    · exact hs
    · linarith

/-- A position in the upper left quadrant has its angle in `(π/2, π)`. -/
theorem updateTheta_quadrant2 (s : position) (hx : s.x < 0) (hy : 0 < s.y) :
    PI / 2 < s.updateTheta.theta ∧ s.updateTheta.theta < PI := by
  have hpi := PI_pos
  have h1 := (atan2_mem s.x (-s.y)).1
  have h2 : atan2 s.x (-s.y) < -(PI / 2) := by
    by_contra hcon
    have hle : -(Real.pi / 2) ≤ Complex.arg ⟨-s.y, s.x⟩ := not_lt.mp hcon
    rw [Complex.neg_pi_div_two_le_arg_iff] at hle
    simp only at hle
    rcases hle with hle | hle <;> linarith
  unfold position.updateTheta
  simp only
  rw [if_neg (by linarith)]
  constructor <;> linarith

/-- A position in the lower left quadrant has its angle in `(π, 3π/2)`. -/
theorem updateTheta_quadrant3 (s : position) (hx : s.x < 0) (hy : s.y < 0) :
    PI < s.updateTheta.theta ∧ s.updateTheta.theta < 1.5 * PI := by
  have hpi := PI_pos
  have h1 : atan2 s.x (-s.y) < 0 := by
    unfold atan2
    rw [Complex.arg_neg_iff]
    exact hx
  have h2 : -(PI / 2) < atan2 s.x (-s.y) := by
    unfold atan2 PI
    rw [Complex.neg_pi_div_two_lt_arg_iff]
    left
    simpa using hy
  unfold position.updateTheta
  simp only
  rw [if_neg (by linarith)]
  constructor <;> linarith

/-- A velocity with positive tangential component at `theta` points ahead of
`theta`, when its angle `beta` is less than `π` behind it. -/
theorem beta_gt_of_tangential_pos {v : velocity} {theta : ℝ} (ht : 0 < v.tangential theta)
    (h1 : -PI < v.beta - theta) : theta < v.beta := by
  by_contra hcon
  have hle : v.beta - theta ≤ 0 := by linarith [not_lt.mp hcon]
  have hsin : Real.sin (v.beta - theta) ≤ 0 :=
    Real.sin_nonpos_of_nonnpos_of_neg_pi_le hle h1.le
  rw [tangential_eq] at ht
  have := mul_nonpos_of_nonneg_of_nonpos (mod_nonneg v) hsin
  linarith

theorem beta_quadrant1 {v : velocity} (hx : 0 ≤ v.x) (hy : 0 ≤ v.y) :
    0 ≤ v.beta ∧ v.beta ≤ PI / 2 := by
  have h0 : ¬ atan2 v.y v.x < 0 := by
    unfold atan2
    rw [Complex.arg_neg_iff]
    simpa using hy
  have h1 : atan2 v.y v.x ≤ PI / 2 := by
    unfold atan2 PI
    rw [Complex.arg_le_pi_div_two_iff]
    left
    exact hx
  unfold velocity.beta
  rw [if_neg h0]
  exact ⟨not_lt.mp h0, h1⟩

theorem sin_three_halves_pi : Real.sin (3 / 2 * PI) = -1 := by
  have : 3 / 2 * PI = Real.pi / 2 + Real.pi := by
    unfold PI
    ring
  rw [this, Real.sin_add_pi, Real.sin_pi_div_two]

/-! ## The concrete inputs, evaluated -/

/-- The position of `wHit` and `wMode` after the Verlet position update. -/
theorem wHit_advanced_position :
    wHit.advanced.p.toposition =
      { x := -4 / 5, y := 3 / 5, r := 1
        theta := atan2 (-89 / 125) (-(589 / 1000)) + 1.5 * PI, omega0 := 2 } := by
  simp only [World.advanced, position.update, wHit, vHit]
  norm_num

/-- The angle of `wHit` at the collision: `sin = 3/5`, `cos = -4/5`. -/
theorem wHit_theta :
    Real.sin wHit.advanced.p.resynced.theta = 3 / 5 ∧
      Real.cos wHit.advanced.p.resynced.theta = -4 / 5 ∧
      PI / 2 < wHit.advanced.p.resynced.theta ∧ wHit.advanced.p.resynced.theta < PI := by
  have e : wHit.advanced.p.resynced.theta
      = wHit.advanced.p.toposition.updateTheta.theta := rfl
  rw [e, wHit_advanced_position]
  have hq := updateTheta_quadrant2
    { x := -4 / 5, y := 3 / 5, r := 1
      theta := atan2 (-89 / 125) (-(589 / 1000)) + 1.5 * PI, omega0 := 2 }
    (by norm_num) (by norm_num)
  have hp := updateTheta_polar
    { x := -4 / 5, y := 3 / 5, r := 1
      theta := atan2 (-89 / 125) (-(589 / 1000)) + 1.5 * PI, omega0 := 2 }
  simp only at hp
  have h1 : ((-4 / 5 : ℝ) * (-4 / 5) + 3 / 5 * (3 / 5)) = 1 := by norm_num
  rw [h1, Real.sqrt_one, one_mul, one_mul] at hp
  exact ⟨hp.2, hp.1, hq.1, hq.2⟩

theorem wHit_tangential : vHit.tangential wHit.advanced.p.resynced.theta = 2 / 5 := by
  unfold velocity.tangential
  rw [wHit_theta.1, wHit_theta.2.1]
  norm_num [vHit]

theorem wHit_detected : wHit.advanced.collisionDetected := by
  refine ⟨rfl, ?_, ?_, ?_⟩
  · show (1 : ℝ) ≠ 0
    norm_num
  · have hd : 0 ≤ wHit.advanced.p.delta :=
      mul_nonneg (mod_nonneg _) (by norm_num [World.advanced, wHit])
    have he : wHit.advanced.p.epsilon = 0 := by
      unfold point.epsilon
      rw [wHit_advanced_position]
      norm_num
    rw [he]
    exact not_lt.mpr hd
  · unfold point.tensionFormula
    rw [wHit_theta.1]
    have e : wHit.advanced.alpha = 3 / 2 * PI := rfl
    rw [e, sin_three_halves_pi]
    simp only [point.resynced, World.advanced, position.update, position.updateTheta, wHit, g]
    norm_num

theorem wHit_projection :
    wHit.p.v.getTangentialComponent wHit.advanced.p.resynced.theta
      = .ok { x := -6 / 25, y := -8 / 25 } := by
  have hpi := PI_pos
  obtain ⟨hs, hc, h1, h2⟩ := wHit_theta
  have e : wHit.p.v = vHit := rfl
  rw [e]
  have hb := @beta_quadrant2 vHit (by norm_num [vHit]) (by norm_num [vHit])
  have hgt : wHit.advanced.p.resynced.theta < vHit.beta :=
    beta_gt_of_tangential_pos (by rw [wHit_tangential]; norm_num) (by linarith [hb.1])
  rw [getTangentialComponent_B ⟨h1.le, h2, hgt, by linarith [hb.2]⟩, wHit_tangential, hs, hc]
  norm_num

theorem wHit_guard : ¬ wHit.advanced.p.dist > wHit.p.r + wHit.p.r / 10 := by
  unfold point.dist
  rw [wHit_advanced_position]
  norm_num [wHit]

theorem mod_projected : ({ x := -6 / 25, y := -8 / 25 } : velocity).mod = 2 / 5 := by
  rw [mod_of_sq _ (2 / 5) (by norm_num)]
  exact abs_of_pos (by norm_num)

theorem wHit_move :
    point.move wHit =
      .ok ((wHit.advanced.collided { x := -6 / 25, y := -8 / 25 }).sampled
        wHit.p.theta).finalized :=
  move_collision_eq wHit_detected wHit_projection (by decide) wHit_guard

theorem wHit_move_T :
    ((wHit.advanced.collided { x := -6 / 25, y := -8 / 25 }).sampled
        wHit.p.theta).finalized.p.T = -(11 / 25) := by
  rw [finalized_of_collision (by rfl)]
  have hth : wHit.advanced.counted.p.theta = wHit.advanced.p.resynced.theta := by
    unfold World.counted
    simp only
    rw [tensionPhase_eq]
  have hr : wHit.advanced.counted.p.r = 1 := by
    unfold World.counted
    simp only
    rw [tensionPhase_eq]
    rfl
  have hmass : wHit.advanced.counted.p.mass = 1 := by
    unfold World.counted
    simp only
    rw [tensionPhase_eq]
    rfl
  simp only [World.sampled, World.collided, World.reinitialized]
  rw [hth, hr, hmass, mod_projected, wHit_theta.1]
  simp only [g]
  norm_num

/-- C1 (failing input): the body `wHit` (mass `1 > 0`, slack) reaches the
circle at `(-4/5, 3/5)`, where a collision is detected; `move` returns
normally and the tension recomputed by `reInitialize` is stored unclamped:
`T = -11/25`. -/
theorem C1_negative_tension_after_collision :
    wHit.p.mass > 0 ∧
      ∃ w', point.move wHit = .ok w' ∧ w'.p.T = -(11 / 25) ∧ w'.p.T < 0 := by
  refine ⟨by simp [wHit], _, wHit_move, wHit_move_T, ?_⟩
  rw [wHit_move_T]
  norm_num

theorem wHit_move_exn : (point.move wHit).exn = none := by
  rw [wHit_move]
  rfl

/-- C6 (witness): the collision step of `wHit` completes. -/
theorem C6_string_length_guard_witness :
    ((point.move wHit).exn = some .threadBroken ↔
        wHit.advanced.p.dist > wHit.p.r + wHit.p.r / 10) ∧
      (wHit.advanced.p.dist ≤ wHit.p.r + wHit.p.r / 10 → (point.move wHit).isOk = true) :=
  C6_string_length_guard wHit (by rw [wHit_move_exn]; simp) (by rw [wHit_move_exn]; simp)

/-- C9 (witness): the collision step of `wHit`. -/
theorem C9_collision_step_witness :
    ∃ w', point.move wHit = .ok w' ∧
      (wHit.p.v.getTangentialComponent w'.p.theta = .ok w'.p.v ∧
        w'.p.omega0 = w'.p.v.mod / w'.p.r ∧
        w'.alpha = w'.p.theta ∧
        w'.p.T = w'.p.mass * g *
          (-3 * Real.sin w'.p.theta + 2 * Real.sin w'.alpha
            + w'.p.r / g * w'.p.omega0 * w'.p.omega0) ∧
        w'.p.lastXc = w'.p.x ∧ w'.p.lastYc = w'.p.y ∧ w'.p.collision = false) :=
  ⟨_, wHit_move, C9_collision_step wHit _ wHit_move wHit_detected⟩

/-- C10 (witness): the collision step of `wHit` takes the count from `0` to `1`. -/
theorem C10_collision_count_witness :
    ∃ w', point.move wHit = .ok w' ∧ w'.p.numberOfCollisions = wHit.p.numberOfCollisions + 1 :=
  ⟨_, wHit_move, (C10_collision_count wHit _ wHit_move).2.1.mpr wHit_detected⟩

/-! ### `wMode`: the write of a collision step fails -/

theorem wMode_move :
    point.move wMode =
      .thrown .invalidOutputMode (wMode.advanced.reinitialized { x := -6 / 25, y := -8 / 25 }) :=
  @move_collision_invalid_mode wMode { x := -6 / 25, y := -8 / 25 } wHit_detected
    wHit_projection (by decide)

/-- C6 (counterexample): in the step of `wMode` the tangential projection
succeeds and the advanced position is at distance `1 <= r + r/10` from the
origin, yet the step does not complete: the write of the collision step
throws the invalid-output-mode error. -/
theorem C6_counterexample :
    (point.move wMode).exn ≠ some .precisionLimit ∧
      wMode.p.v.getTangentialComponent wMode.advanced.p.resynced.theta
        = .ok { x := -6 / 25, y := -8 / 25 } ∧
      wMode.advanced.p.dist ≤ wMode.p.r + wMode.p.r / 10 ∧
      (point.move wMode).isOk = false ∧
      (point.move wMode).exn = some .invalidOutputMode := by
  rw [wMode_move]
  refine ⟨by simp [Outcome.exn], wHit_projection, not_lt.mp wHit_guard, rfl, rfl⟩

/-! ## Failed steps -/

/-- What lines 101-120 leave untouched. -/
theorem tensionPhase_frame (p : point) (alpha t : ℝ) :
    (p.tensionPhase alpha t).toposition = p.toposition.updateTheta ∧
      (p.tensionPhase alpha t).v = p.v ∧
      (p.tensionPhase alpha t).a0 = p.a1 ∧
      (p.tensionPhase alpha t).a1 = p.a1 ∧
      (p.tensionPhase alpha t).mass = p.mass ∧
      (p.tensionPhase alpha t).dt = p.dt ∧
      (p.tensionPhase alpha t).defaultOutputMode = p.defaultOutputMode ∧
      (p.tensionPhase alpha t).numberOfCollisions = p.numberOfCollisions ∧
      (p.tensionPhase alpha t).lastXc = p.lastXc ∧
      (p.tensionPhase alpha t).lastYc = p.lastYc ∧
      (p.tensionPhase alpha t).collision = p.collision := by
  rw [tensionPhase_eq]
  exact ⟨rfl, rfl, rfl, rfl, rfl, rfl, rfl, rfl, rfl, rfl, rfl⟩

/-- C7 (amended): a failed step is partially applied. If `move` throws, the
body is left as mutated up to the throw: the position is the Verlet-advanced
one, `theta` is the angle resynchronised to it and `a[0]` holds the previous
`a[1]`, while `r`, `mass`, `dt`, the default output mode, the newest sample
`a[1]` and `t` are as before the call; when no collision was detected on the
step, the velocity, `omega0`, `alpha`, `numberOfCollisions`, `lastXc`,
`lastYc` and the collision flag are as before too. -/
theorem C7_failed_step_state (w s : World) (e : Exn)
    (h : point.move w = .thrown e s) :
    s.p.x = w.p.x + (w.p.v.x * w.p.dt + w.p.a1.x * w.p.dt * w.p.dt / 2) ∧
      s.p.y = w.p.y + (w.p.v.y * w.p.dt + w.p.a1.y * w.p.dt * w.p.dt / 2) ∧
      s.p.theta = w.advanced.p.resynced.theta ∧
      s.p.a0 = w.p.a1 ∧ s.p.a1 = w.p.a1 ∧
      s.p.r = w.p.r ∧ s.p.mass = w.p.mass ∧ s.p.dt = w.p.dt ∧
      s.p.defaultOutputMode = w.p.defaultOutputMode ∧ s.t = w.t ∧
      (¬ w.advanced.collisionDetected →
        s.p.v = w.p.v ∧ s.p.omega0 = w.p.omega0 ∧ s.alpha = w.alpha ∧
          s.p.numberOfCollisions = w.p.numberOfCollisions ∧
          s.p.lastXc = w.p.lastXc ∧ s.p.lastYc = w.p.lastYc ∧
          s.p.collision = w.p.collision) := by
  obtain ⟨f1, f2, f3, f4, f5, f6, f7, f8, f9, f10, f11⟩ :=
    tensionPhase_frame w.advanced.p w.advanced.alpha w.advanced.t
  have hpos : (w.advanced.p.tensionPhase w.advanced.alpha w.advanced.t).toposition
      = w.advanced.p.resynced.toposition := f1
  have hx : (w.advanced.p.tensionPhase w.advanced.alpha w.advanced.t).x
      = w.p.x + (w.p.v.x * w.p.dt + w.p.a1.x * w.p.dt * w.p.dt / 2) :=
    congrArg position.x hpos
  have hy : (w.advanced.p.tensionPhase w.advanced.alpha w.advanced.t).y
      = w.p.y + (w.p.v.y * w.p.dt + w.p.a1.y * w.p.dt * w.p.dt / 2) :=
    congrArg position.y hpos
  have hth : (w.advanced.p.tensionPhase w.advanced.alpha w.advanced.t).theta
      = w.advanced.p.resynced.theta := congrArg position.theta hpos
  have hr : (w.advanced.p.tensionPhase w.advanced.alpha w.advanced.t).r = w.p.r := by
    rw [tensionPhase_eq]
    rfl
  have hom : (w.advanced.p.tensionPhase w.advanced.alpha w.advanced.t).omega0
      = w.p.omega0 := by
    rw [tensionPhase_eq]
    rfl
  rcases move_cases w with ⟨hnd, hm⟩ | ⟨hd, -, hm⟩ | ⟨hd, v', -, -, hm⟩ | ⟨hd, v', -, -, hm⟩
  · rw [hm] at h
    split_ifs at h
    injection h with _ hs
    subst hs
    exact ⟨hx, hy, hth, f3, f4, hr, f5, f6, f7, rfl,
      fun _ => ⟨f2, hom, rfl, f8, f9, f10, f11⟩⟩
  · rw [hm] at h
    injection h with _ hs
    subst hs
    exact ⟨hx, hy, hth, f3, f4, hr, f5, f6, f7, rfl, fun hnd => absurd hd hnd⟩
  · rw [hm] at h
    injection h with _ hs
    subst hs
    exact ⟨hx, hy, hth, f3, f4, hr, f5, f6, f7, rfl, fun hnd => absurd hd hnd⟩
  · rw [hm] at h
    split_ifs at h
    injection h with _ hs
    subst hs
    exact ⟨hx, hy, hth, f3, f4, hr, f5, f6, f7, rfl, fun hnd => absurd hd hnd⟩

/-- The abscissa after lines 101-120 at the advanced position. -/
theorem tensioned_x (w : World) :
    ({ w.advanced.tensioned with
        dtheta := correctDtheta (w.advanced.tensioned.p.theta - w.p.theta) } : World).p.x
      = w.p.x + (w.p.v.x * w.p.dt + w.p.a1.x * w.p.dt * w.p.dt / 2) :=
  congrArg position.x (tensionPhase_frame w.advanced.p w.advanced.alpha w.advanced.t).1

/-! ### `wBreak`: the thread breaks -/

theorem wBreak_advanced_position :
    wBreak.advanced.p.toposition =
      { x := 199 / 200, y := 219 / 200, r := 1, theta := 2 * PI, omega0 := 11 } := by
  simp only [World.advanced, position.update, wBreak]
  norm_num

theorem wBreak_not_detected : ¬ wBreak.advanced.collisionDetected := by
  intro h
  have h0 : (1 : ℝ) = 0 := h.1
  norm_num at h0

theorem wBreak_guard : wBreak.advanced.p.dist > wBreak.p.r + wBreak.p.r / 10 := by
  unfold point.dist
  rw [wBreak_advanced_position]
  show Real.sqrt (199 / 200 * (199 / 200) + 219 / 200 * (219 / 200)) > (1 : ℝ) + 1 / 10
  have h : ((1 : ℝ) + 1 / 10) < Real.sqrt (199 / 200 * (199 / 200) + 219 / 200 * (219 / 200)) := by
    rw [Real.lt_sqrt (by norm_num)]
    norm_num
  exact h

theorem wBreak_move :
    point.move wBreak =
      .thrown .threadBroken
        { wBreak.advanced.tensioned with
          dtheta := correctDtheta (wBreak.advanced.tensioned.p.theta - wBreak.p.theta) } := by
  rw [move_no_collision_eq wBreak_not_detected, if_pos wBreak_guard]

/-- C7 (counterexample): the step of `wBreak` throws the broken-thread error
and the body is not as before the call: `x` was `1` and is `199/200`. -/
theorem C7_counterexample :
    (point.move wBreak).isOk = false ∧ wBreak.p.x = 1 ∧
      (point.move wBreak).state.p.x = 199 / 200 ∧
      (point.move wBreak).state.p.x ≠ wBreak.p.x := by
  have hx : (point.move wBreak).state.p.x = 199 / 200 := by
    rw [wBreak_move]
    exact (tensioned_x wBreak).trans (by norm_num [wBreak])
  refine ⟨by rw [wBreak_move]; rfl, rfl, hx, ?_⟩
  rw [hx]
  show (199 / 200 : ℝ) ≠ 1
  norm_num

/-- C7 (witness): the failed step of `wBreak`. -/
theorem C7_failed_step_state_witness :
    ∃ s, point.move wBreak = .thrown .threadBroken s ∧
      s.p.x = wBreak.p.x
        + (wBreak.p.v.x * wBreak.p.dt + wBreak.p.a1.x * wBreak.p.dt * wBreak.p.dt / 2) ∧
      s.p.r = wBreak.p.r ∧ s.p.v = wBreak.p.v :=
  ⟨_, wBreak_move,
    (C7_failed_step_state wBreak _ _ wBreak_move).1,
    (C7_failed_step_state wBreak _ _ wBreak_move).2.2.2.2.2.1,
    ((C7_failed_step_state wBreak _ _ wBreak_move).2.2.2.2.2.2.2.2.2.2
      wBreak_not_detected).1⟩

/-- Without a detected collision the tension stored by a successful `move`
is the clamped one. -/
theorem move_T_nonneg_of_not_detected {w w' : World} (hmove : point.move w = .ok w')
    (hnd : ¬ w.advanced.collisionDetected) : 0 ≤ w'.p.T := by
  rcases move_ok_cases hmove with ⟨-, rfl⟩ | ⟨hd, -⟩
  · have h0 := tensionPhase_T_nonneg w.advanced.p w.advanced.alpha w.advanced.t
    unfold World.finalized
    split_ifs <;> exact h0
  · exact absurd hd hnd

/-! ### `wFree`: a step of free fall -/

theorem wFree_advanced_position :
    wFree.advanced.p.toposition =
      { x := 0, y := 99 / 200, r := 1, theta := PI / 2, omega0 := 2 } := by
  simp only [World.advanced, position.update, wFree]
  norm_num

theorem wFree_held : wFree.advanced.p.epsilon > wFree.advanced.p.delta := by
  have hd : wFree.advanced.p.delta = 0 := by
    simp [point.delta, World.advanced, wFree, velocity.mod]
  have he : wFree.advanced.p.epsilon = 1 - 99 / 200 := by
    unfold point.epsilon
    rw [wFree_advanced_position]
    simp only
    rw [zero_mul, zero_add, Real.sqrt_mul_self (by norm_num)]
  rw [hd, he]
  norm_num

theorem wFree_not_detected : ¬ wFree.advanced.collisionDetected :=
  fun h => h.2.2.1 wFree_held

theorem wFree_guard : ¬ wFree.advanced.p.dist > wFree.p.r + wFree.p.r / 10 := by
  unfold point.dist
  rw [wFree_advanced_position]
  simp only
  rw [zero_mul, zero_add, Real.sqrt_mul_self (by norm_num)]
  norm_num [wFree]

theorem computeAcceleration_collision_eq {u : World} {v' : velocity}
    (hd : u.collisionDetected)
    (hp : u.p.v.getTangentialComponent u.p.resynced.theta = .ok v')
    (hm : 0 ≤ u.p.currentOutputMode ∧ u.p.currentOutputMode ≤ 8)
    (hg : ¬ u.p.dist > u.p.r + u.p.r / 10) :
    point.computeAcceleration u = .ok ((u.collided v').sampled u.p.theta) := by
  rcases computeAcceleration_cases u with
    ⟨hnd, -⟩ | ⟨-, hp', -⟩ | ⟨-, v'', -, hm', -⟩ | ⟨-, v'', hp', -, h⟩
  · exact absurd hd hnd
  · rw [hp] at hp'
    exact Outcome.noConfusion hp'
  · exact absurd hm hm'
  · rw [hp] at hp'
    injection hp' with hp'
    subst hp'
    rw [h, finishPhase_eq, (collided_dist _ _).1, (collided_dist _ _).2, if_neg hg]

theorem sin_five_quarters_pi : Real.sin (5 / 4 * PI) = -(√2 / 2) := by
  have : 5 / 4 * PI = Real.pi / 4 + Real.pi := by
    unfold PI
    ring
  rw [this, Real.sin_add_pi, Real.sin_pi_div_four]

theorem cos_five_quarters_pi : Real.cos (5 / 4 * PI) = -(√2 / 2) := by
  have : 5 / 4 * PI = Real.pi / 4 + Real.pi := by
    unfold PI
    ring
  rw [this, Real.cos_add_pi, Real.cos_pi_div_four]

theorem wCtor_position :
    wCtor.p.toposition =
      { x := -(√2 / 2), y := -(√2 / 2), r := 1, theta := 5 / 4 * PI, omega0 := 1 } := by
  have hpi := PI_pos
  simp only [wCtor, point.ctorEntry, position.updateCartesian]
  rw [if_neg (by linarith), sin_five_quarters_pi, cos_five_quarters_pi]
  simp

theorem wCtor_velocity : wCtor.p.v = { x := √2 / 2, y := √2 / 2 } := by
  simp only [wCtor, point.ctorEntry]
  rw [sin_five_quarters_pi, cos_five_quarters_pi]
  simp

theorem sqrt_two_pos : (0 : ℝ) < √2 / 2 := by positivity

/-- The angle of `wCtor` after `updateTheta`: in `(π, 3π/2)`, with sine
`-√2/2`. -/
theorem wCtor_theta :
    Real.sin wCtor.p.resynced.theta = -(√2 / 2) ∧
      PI < wCtor.p.resynced.theta ∧ wCtor.p.resynced.theta < 1.5 * PI := by
  have h2 : √2 * √2 = 2 := Real.mul_self_sqrt (by norm_num)
  have hpos := sqrt_two_pos
  have e : wCtor.p.resynced.theta = wCtor.p.toposition.updateTheta.theta := rfl
  rw [e, wCtor_position]
  have hq := updateTheta_quadrant3
    { x := -(√2 / 2), y := -(√2 / 2), r := 1, theta := 5 / 4 * PI, omega0 := 1 }
    (by simp only; linarith) (by simp only; linarith)
  have hp := updateTheta_polar
    { x := -(√2 / 2), y := -(√2 / 2), r := 1, theta := 5 / 4 * PI, omega0 := 1 }
  simp only at hp
  have h1 : (-(√2 / 2) * -(√2 / 2) + -(√2 / 2) * -(√2 / 2)) = 1 := by
    linear_combination (1 / 2 : ℝ) * h2
  rw [h1, Real.sqrt_one, one_mul, one_mul] at hp
  exact ⟨hp.2, hq.1, hq.2⟩

theorem wCtor_dist : wCtor.p.dist = 1 := by
  have h2 : √2 * √2 = 2 := Real.mul_self_sqrt (by norm_num)
  unfold point.dist
  rw [wCtor_position]
  simp only
  have h1 : (-(√2 / 2) * -(√2 / 2) + -(√2 / 2) * -(√2 / 2)) = 1 := by
    linear_combination (1 / 2 : ℝ) * h2
  rw [h1, Real.sqrt_one]

theorem wCtor_detected : wCtor.collisionDetected := by
  have hpos := sqrt_two_pos
  refine ⟨rfl, ?_, ?_, ?_⟩
  · show (1 : ℝ) ≠ 0
    norm_num
  · have hd : 0 ≤ wCtor.p.delta :=
      mul_nonneg (mod_nonneg _) (by norm_num [wCtor, point.ctorEntry])
    have he : wCtor.p.epsilon = 0 := by
      have hdist := wCtor_dist
      unfold point.dist at hdist
      unfold point.epsilon
      rw [hdist]
      have : wCtor.p.r = 1 := rfl
      rw [this]
      norm_num
    rw [he]
    exact not_lt.mpr hd
  · unfold point.tensionFormula
    rw [wCtor_theta.1]
    have e : wCtor.alpha = 5 / 4 * PI := rfl
    rw [e, sin_five_quarters_pi]
    have hm : wCtor.p.resynced.mass = 1 := rfl
    have hr : wCtor.p.resynced.r = 1 := rfl
    have ho : wCtor.p.resynced.omega0 = 1 := rfl
    rw [hm, hr, ho]
    simp only [g]
    linarith

theorem wCtor_projection :
    ∃ v', wCtor.p.v.getTangentialComponent wCtor.p.resynced.theta = .ok v' := by
  have hpi := PI_pos
  have hpos := sqrt_two_pos
  obtain ⟨-, h1, h2⟩ := wCtor_theta
  have hb : wCtor.p.v.beta ≤ PI / 2 := by
    rw [wCtor_velocity]
    exact (beta_quadrant1 (by simp only; linarith) (by simp only; linarith)).2
  exact ⟨_, getTangentialComponent_C5 ⟨h1.le, h2, by linarith⟩⟩

theorem wCtor_guard : ¬ wCtor.p.dist > wCtor.p.r + wCtor.p.r / 10 := by
  rw [wCtor_dist]
  have : wCtor.p.r = 1 := rfl
  rw [this]
  norm_num

/-- C10 (counterexample): the constructor call
`point(1, 1.25 * PI, 1, 1, 0.1, dtheta, t, 0)` with `t = 1` returns normally
and leaves `numberOfCollisions` at `1`, not `0`. -/
theorem C10_counterexample :
    ∃ c, point.ctor 1 (5 / 4 * PI) 1 1 (1 / 10) 0 1 0 { x := 0, y := 0 } = .ok c ∧
      c.p.numberOfCollisions = 1 := by
  obtain ⟨v', hv'⟩ := wCtor_projection
  have hca := computeAcceleration_collision_eq wCtor_detected hv' (by decide) wCtor_guard
  refine ⟨{ (wCtor.collided v').sampled wCtor.p.theta with alpha := 5 / 4 * PI }, ?_, ?_⟩
  · unfold point.ctor
    have e : point.ctorEntry 1 (5 / 4 * PI) 1 1 (1 / 10) 0 1 0 { x := 0, y := 0 } = wCtor := rfl
    rw [e, hca]
    simp only [Outcome.bind]
    have hmode : ((wCtor.collided v').sampled wCtor.p.theta).p.currentOutputMode = 0 := by
      simp only [World.sampled, World.collided, World.reinitialized, World.counted]
      rw [tensionPhase_eq]
      simp only [point.resynced, wCtor, point.ctorEntry]
      split_ifs <;> rfl
    rw [if_pos (by rw [hmode]; decide)]
    unfold point.write
    rw [if_pos (by rw [hmode]; decide)]
  · show (wCtor.p.tensionPhase wCtor.alpha wCtor.t).numberOfCollisions + 1 = 1
    rw [(tensionPhase_frame _ _ _).2.2.2.2.2.2.2.1]
    rfl

/-! ## `updateTheta` and `updateCartesian` -/

theorem updateTheta_range (s : position) :
    0 < s.updateTheta.theta ∧ s.updateTheta.theta ≤ 2 * PI := by
  have hpi := PI_pos
  have h := atan2_mem s.x (-s.y)
  unfold position.updateTheta
  simp only
  split_ifs with hgt
  · constructor <;> linarith [h.1, h.2]
  · exact ⟨by linarith [h.1], not_lt.mp hgt⟩

/-- C14: after `updateTheta` the angle lies in `(0, 2π]` and is the polar
angle of the position: `x = rho * cos(theta)`, `y = rho * sin(theta)` with
`rho = sqrt(x^2 + y^2)`; `x`, `y` and `r` are unchanged. This holds for every
position (at the origin `rho = 0`). -/
theorem C14_updateTheta_polar_angle (s : position) :
    (0 < s.updateTheta.theta ∧ s.updateTheta.theta ≤ 2 * PI) ∧
      s.x = Real.sqrt (s.x * s.x + s.y * s.y) * Real.cos s.updateTheta.theta ∧
      s.y = Real.sqrt (s.x * s.x + s.y * s.y) * Real.sin s.updateTheta.theta ∧
      s.updateTheta.x = s.x ∧ s.updateTheta.y = s.y ∧ s.updateTheta.r = s.r :=
  ⟨updateTheta_range s, (updateTheta_polar s).1.symm, (updateTheta_polar s).2.symm,
    rfl, rfl, rfl⟩

/-- The angle that `updateTheta` finds for the point `(r cos theta, r sin theta)`
with `r > 0` and `theta` in `[0, 2π]`. -/
theorem updateTheta_updateCartesian (s : position) (hr : 0 < s.r) (h0 : 0 ≤ s.theta)
    (h2 : s.theta ≤ 2 * PI) :
    s.updateCartesian.updateTheta.theta = if s.theta = 0 then 2 * PI else s.theta := by
  have hpi := PI_pos
  have hcart : s.updateCartesian =
      { s with x := s.r * Real.cos s.theta, y := s.r * Real.sin s.theta } := by
    unfold position.updateCartesian
    simp only
    rw [if_neg (not_lt.mpr h0)]
  rw [hcart]
  unfold position.updateTheta
  simp only
  by_cases hq : s.theta ≤ PI / 2
  · -- the argument is `theta + π/2`
    have hat : atan2 (s.r * Real.cos s.theta) (-(s.r * Real.sin s.theta))
        = s.theta + PI / 2 := by
      have h := @atan2_polar s.r (s.theta + PI / 2) hr (by linarith) (by linarith)
      have e1 : Real.sin (s.theta + PI / 2) = Real.cos s.theta := by
        unfold PI
        exact Real.sin_add_pi_div_two _
      have e2 : Real.cos (s.theta + PI / 2) = -Real.sin s.theta := by
        unfold PI
        exact Real.cos_add_pi_div_two _
      rw [e1, e2, mul_neg] at h
      exact h
    rw [hat]
    by_cases hz : s.theta = 0
    · rw [if_pos hz, hz, if_neg (by linarith)]
      ring
    · have hpos : 0 < s.theta := lt_of_le_of_ne h0 (Ne.symm hz)
      rw [if_neg hz, if_pos (by linarith)]
      ring
  · -- the argument is `theta - 3π/2`
    have hq' : PI / 2 < s.theta := not_le.mp hq
    have hat : atan2 (s.r * Real.cos s.theta) (-(s.r * Real.sin s.theta))
        = s.theta - 3 * PI / 2 := by
      have h := @atan2_polar s.r (s.theta - 3 * PI / 2) hr (by linarith) (by linarith)
      have e0 : s.theta - 3 * PI / 2 = s.theta + Real.pi / 2 - 2 * Real.pi := by
        unfold PI
        ring
      have e1 : Real.sin (s.theta - 3 * PI / 2) = Real.cos s.theta := by
        rw [e0, Real.sin_sub_two_pi, Real.sin_add_pi_div_two]
      have e2 : Real.cos (s.theta - 3 * PI / 2) = -Real.sin s.theta := by
        rw [e0, Real.cos_sub_two_pi, Real.cos_add_pi_div_two]
      rw [e1, e2, mul_neg] at h
      exact h
    rw [hat, if_neg (by linarith), if_neg (by linarith)]
    ring

/-- C20: for `r > 0` and `theta` in `(0, 2π]`, `updateCartesian` followed by
`updateTheta` gives `x = r cos(theta)`, `y = r sin(theta)` and leaves `theta`
unchanged; at `theta = 0` the round trip returns `2π`. -/
theorem C20_polar_round_trip (s : position) (hr : 0 < s.r) (h0 : 0 ≤ s.theta)
    (h2 : s.theta ≤ 2 * PI) :
    s.updateCartesian.updateTheta.x = s.r * Real.cos s.theta ∧
      s.updateCartesian.updateTheta.y = s.r * Real.sin s.theta ∧
      (0 < s.theta → s.updateCartesian.updateTheta.theta = s.theta) ∧
      (s.theta = 0 → s.updateCartesian.updateTheta.theta = 2 * PI) := by
  have hrt := updateTheta_updateCartesian s hr h0 h2
  have hcart : s.updateCartesian =
      { s with x := s.r * Real.cos s.theta, y := s.r * Real.sin s.theta } := by
    unfold position.updateCartesian
    simp only
    rw [if_neg (not_lt.mpr h0)]
  refine ⟨by rw [hcart]; rfl, by rw [hcart]; rfl, ?_, ?_⟩
  · intro hpos
    rw [hrt, if_neg (ne_of_gt hpos)]
  · intro hz
    rw [hrt, if_pos hz]

/-- C20 (witness): the round trip at `r = 1`, `theta = π`. -/
theorem C20_polar_round_trip_witness :
    ({ x := 0, y := 0, r := 1, theta := PI, omega0 := 0 } : position).updateCartesian.updateTheta.theta
      = PI :=
  (C20_polar_round_trip { x := 0, y := 0, r := 1, theta := PI, omega0 := 0 }
    (by norm_num) PI_pos.le (by linarith [PI_pos])).2.2.1 PI_pos

/-! ## The angle difference -/

theorem PI_gt_three : 3 < PI := Real.pi_gt_three

/-- Lines 154-158 on a raw difference in `[-2π, 2π]`. -/
theorem correctDtheta_spec (d : ℝ) (h1 : -(2 * PI) ≤ d) (h2 : d ≤ 2 * PI) :
    (correctDtheta d = d ∨ correctDtheta d = d - 2 * PI ∨ correctDtheta d = d + 2 * PI) ∧
      |correctDtheta d| ≤ 2 * PI - 0.001 ∧
      (2 * PI - 0.001 < |d| → |correctDtheta d| < 0.001) := by
  have hpi := PI_gt_three
  unfold correctDtheta
  simp only
  by_cases hA : d > 2 * PI ∨ d + 1e-3 > 2 * PI
  · have hd : 2 * PI - 0.001 < d := by
      rcases hA with hA | hA
      · norm_num
        linarith
      · norm_num at hA ⊢
        linarith
    rw [if_pos hA]
    have hB : ¬ (-(d - 2 * PI) > 2 * PI ∨ -(d - 2 * PI) + 1e-3 > 2 * PI) := by
      rintro (hB | hB)
      · linarith
      · norm_num at hB hd
        linarith
    rw [if_neg hB]
    norm_num at hd
    refine ⟨Or.inr (Or.inl rfl), ?_, fun _ => ?_⟩
    · rw [abs_le]
      constructor <;> norm_num <;> linarith
    · rw [abs_lt]
      constructor <;> norm_num <;> linarith
  · rw [if_neg hA]
    have hd : d ≤ 2 * PI - 0.001 := by
      by_contra hcon
      apply hA
      right
      norm_num at hcon ⊢
      linarith
    by_cases hB : -d > 2 * PI ∨ -d + 1e-3 > 2 * PI
    · have hd' : d < -(2 * PI) + 0.001 := by
        rcases hB with hB | hB
        · norm_num
          linarith
        · norm_num at hB ⊢
          linarith
      rw [if_pos hB]
      norm_num at hd hd'
      refine ⟨Or.inr (Or.inr rfl), ?_, fun _ => ?_⟩
      · rw [abs_le]
        constructor <;> norm_num <;> linarith
      · rw [abs_lt]
        constructor <;> norm_num <;> linarith
    · rw [if_neg hB]
      have hd' : -(2 * PI) + 0.001 ≤ d := by
        by_contra hcon
        apply hB
        right
        norm_num at hcon ⊢
        linarith
      norm_num at hd hd'
      refine ⟨Or.inl rfl, ?_, fun hlt => ?_⟩
      · rw [abs_le]
        constructor <;> norm_num <;> linarith
      · exfalso
        rw [lt_abs] at hlt
        norm_num at hlt
        rcases hlt with hlt | hlt <;> linarith

/-- The `dtheta` and the angle left by a successful `computeAcceleration`. -/
theorem computeAcceleration_ok_dtheta {u u' : World}
    (h : point.computeAcceleration u = .ok u') :
    u'.dtheta = correctDtheta (u'.p.theta - u.p.theta) ∧
      u'.p.theta = u.p.toposition.updateTheta.theta := by
  rcases computeAcceleration_ok_cases h with ⟨-, rfl⟩ | ⟨-, v', -, rfl⟩
  · refine ⟨rfl, ?_⟩
    show (u.p.tensionPhase u.alpha u.t).theta = _
    rw [tensionPhase_eq]
    rfl
  · refine ⟨rfl, ?_⟩
    show (u.p.tensionPhase u.alpha u.t).theta = _
    rw [tensionPhase_eq]
    rfl

/-- C13: for a previous angle in `[0, 2π]` (the new angle, set by
`updateTheta`, is in `(0, 2π]`), the `dtheta` returned by a successful
`computeAcceleration` is `theta - oldTheta`, `theta - oldTheta - 2π` or
`theta - oldTheta + 2π`, has `|dtheta| ≤ 2π - 0.001` (so never exceeds `2π`),
and has magnitude below `0.001` when the raw difference is closer than
`0.001` to `2π` or `-2π`. -/
theorem C13_angle_delta_correction (u u' : World)
    (h : point.computeAcceleration u = .ok u')
    (hold : 0 ≤ u.p.theta ∧ u.p.theta ≤ 2 * PI) :
    (0 ≤ u'.p.theta ∧ u'.p.theta ≤ 2 * PI) ∧
      (u'.dtheta = u'.p.theta - u.p.theta ∨
        u'.dtheta = u'.p.theta - u.p.theta - 2 * PI ∨
        u'.dtheta = u'.p.theta - u.p.theta + 2 * PI) ∧
      |u'.dtheta| ≤ 2 * PI - 0.001 ∧ |u'.dtheta| ≤ 2 * PI ∧
      (2 * PI - 0.001 < |u'.p.theta - u.p.theta| → |u'.dtheta| < 0.001) := by
  obtain ⟨hd, hth⟩ := computeAcceleration_ok_dtheta h
  have hr := updateTheta_range u.p.toposition
  rw [← hth] at hr
  have hs := correctDtheta_spec (u'.p.theta - u.p.theta) (by linarith [hr.1, hold.2])
    (by linarith [hr.2, hold.1])
  rw [← hd] at hs
  refine ⟨⟨hr.1.le, hr.2⟩, hs.1, hs.2.1, ?_, hs.2.2⟩
  have := hs.2.1
  norm_num at this ⊢
  linarith

/-! ## A step without a collision -/

theorem computeAcceleration_no_collision_eq {u : World} (hnd : ¬ u.collisionDetected) :
    point.computeAcceleration u =
      if u.p.dist > u.p.r + u.p.r / 10 then
        .thrown .threadBroken
          { u.tensioned with dtheta := correctDtheta (u.tensioned.p.theta - u.p.theta) }
      else .ok (u.tensioned.sampled u.p.theta) := by
  rcases computeAcceleration_cases u with ⟨-, h⟩ | ⟨hd, -⟩ | ⟨hd, -⟩ | ⟨hd, -⟩
  · rw [h, finishPhase_eq]
    have e1 : ({ u with p := u.p.tensionPhase u.alpha u.t } : World) = u.tensioned := rfl
    rw [e1]
    have e2 : u.tensioned.p.dist = u.p.dist := (tensionPhase_dist _ _ _).1
    have e3 : u.tensioned.p.r = u.p.r := (tensionPhase_dist _ _ _).2
    rw [e2, e3]
  · exact absurd hd hnd
  · exact absurd hd hnd
  · exact absurd hd hnd

/-- What lines 172-175 leave untouched. -/
theorem finalized_frame (w : World) :
    w.finalized.p.toposition = w.p.toposition ∧ w.finalized.p.a0 = w.p.a0 ∧
      w.finalized.p.a1 = w.p.a1 ∧ w.finalized.p.T = w.p.T ∧
      w.finalized.p.mass = w.p.mass ∧ w.finalized.p.dt = w.p.dt ∧
      w.finalized.p.currentOutputMode = w.p.currentOutputMode ∧
      w.finalized.p.defaultOutputMode = w.p.defaultOutputMode ∧
      w.finalized.p.numberOfCollisions = w.p.numberOfCollisions ∧
      w.finalized.p.lastXc = w.p.lastXc ∧ w.finalized.p.lastYc = w.p.lastYc ∧
      w.finalized.alpha = w.alpha ∧ w.finalized.dtheta = w.dtheta ∧
      w.finalized.t = w.t := by
  unfold World.finalized
  split_ifs <;> exact ⟨rfl, rfl, rfl, rfl, rfl, rfl, rfl, rfl, rfl, rfl, rfl, rfl, rfl, rfl⟩

/-- Under the held-slack condition lines 101-120 store `T = 0`. -/
theorem tensionPhase_held {p : point} {alpha t : ℝ}
    (h : p.epsilon > p.delta ∧ p.T = 0 ∧ t ≠ 0) : (p.tensionPhase alpha t).T = 0 := by
  rw [tensionPhase_eq]
  simp only
  rw [if_pos h]

/-- With `delta >= 0` the held-slack condition keeps the bob inside the
circle, so the guard of line 160 does not fire. -/
theorem held_guard {p : point} (hd : 0 ≤ p.delta) (h : p.epsilon > p.delta) :
    ¬ p.dist > p.r + p.r / 10 := by
  have hdist : 0 ≤ p.dist := Real.sqrt_nonneg _
  have he : p.epsilon = p.r - p.dist := rfl
  rw [he] at h
  intro hg
  linarith

/-- C12: when `computeAcceleration` is entered from `move` with previous
tension `0`, `t != 0` and `epsilon > delta` (`epsilon = r - sqrt(x^2 + y^2)` at
the updated position, `delta = |v| * dt`), no collision is detected whatever
the tension formula yields; `computeAcceleration` leaves `T = 0`, the collision
count and the velocity as they were; a `move` that returns has `T = 0`, the
same count and the new acceleration sample `(0, -g)`; and with `dt >= 0` the
call does return. -/
theorem C12_held_slack_override (w : World) (hT : w.p.T = 0) (ht : w.t ≠ 0)
    (hheld : w.advanced.p.epsilon > w.p.delta) :
    ¬ w.advanced.collisionDetected ∧
      ((point.computeAcceleration w.advanced).state.p.T = 0 ∧
        (point.computeAcceleration w.advanced).state.p.numberOfCollisions
          = w.p.numberOfCollisions ∧
        (point.computeAcceleration w.advanced).state.p.v = w.p.v) ∧
      (∀ w', point.move w = .ok w' →
        w'.p.T = 0 ∧ w'.p.numberOfCollisions = w.p.numberOfCollisions ∧
          w'.p.a1 = { x := 0, y := -g }) ∧
      (0 ≤ w.p.dt → (point.move w).isOk = true) := by
  have hnd : ¬ w.advanced.collisionDetected := fun h => h.2.2.1 hheld
  have hT0 : (w.advanced.p.tensionPhase w.advanced.alpha w.advanced.t).T = 0 :=
    tensionPhase_held ⟨hheld, hT, ht⟩
  obtain ⟨f1, f2, f3, f4, f5, f6, f7, f8, f9, f10, f11⟩ :=
    tensionPhase_frame w.advanced.p w.advanced.alpha w.advanced.t
  refine ⟨hnd, ?_, ?_, ?_⟩
  · rw [computeAcceleration_no_collision_eq hnd]
    split_ifs
    · exact ⟨hT0, f8, f2⟩
    · exact ⟨hT0, f8, f2⟩
  · intro w' hmove
    rcases move_ok_cases hmove with ⟨-, rfl⟩ | ⟨hd, -⟩
    · obtain ⟨-, -, g3, g4, -, -, -, -, g9, -⟩ :=
        finalized_frame (w.advanced.tensioned.sampled w.p.theta)
      refine ⟨g4.trans hT0, g9.trans f8, ?_⟩
      rw [g3]
      simp only [World.sampled, World.tensioned]
      rw [hT0]
      simp
    · exact absurd hd hnd
  · intro hdt
    have hdelta : 0 ≤ w.advanced.p.delta := mul_nonneg (mod_nonneg _) hdt
    have hg : ¬ w.advanced.p.dist > w.p.r + w.p.r / 10 := held_guard hdelta hheld
    rw [move_no_collision_eq hnd, if_neg hg]
    rfl

/-! ## The output mode -/

/-- The current output mode after a successful `computeAcceleration`. -/
theorem computeAcceleration_ok_mode {u u' : World}
    (h : point.computeAcceleration u = .ok u') :
    u'.p.defaultOutputMode = u.p.defaultOutputMode ∧
      (u.p.resynced.tensionFormula u.alpha < 0 →
        u'.p.currentOutputMode =
          if u.p.currentOutputMode = 2 ∨ u.p.currentOutputMode = 4 ∨
              u.p.currentOutputMode = 10 ∨ u.p.currentOutputMode = 11 then 0
          else u.p.currentOutputMode) ∧
      (u.collisionDetected →
        u'.p.currentOutputMode =
          if u.p.currentOutputMode = 0 then u.p.defaultOutputMode
          else u.p.currentOutputMode) ∧
      (¬ u.p.resynced.tensionFormula u.alpha < 0 → ¬ u.collisionDetected →
        u'.p.currentOutputMode = u.p.currentOutputMode) := by
  have hdef : (u.p.tensionPhase u.alpha u.t).defaultOutputMode = u.p.defaultOutputMode :=
    (tensionPhase_frame _ _ _).2.2.2.2.2.2.1
  have hmneg : u.p.resynced.tensionFormula u.alpha < 0 →
      (u.p.tensionPhase u.alpha u.t).currentOutputMode =
        if u.p.currentOutputMode = 2 ∨ u.p.currentOutputMode = 4 ∨
            u.p.currentOutputMode = 10 ∨ u.p.currentOutputMode = 11 then 0
        else u.p.currentOutputMode := by
    intro hneg
    rw [tensionPhase_eq]
    simp only
    rw [if_pos hneg]
  have hmpos : ¬ u.p.resynced.tensionFormula u.alpha < 0 →
      (u.p.tensionPhase u.alpha u.t).currentOutputMode = u.p.currentOutputMode := by
    intro hpos
    rw [tensionPhase_eq]
    simp only
    rw [if_neg hpos]
  rcases computeAcceleration_ok_cases h with ⟨hnd, rfl⟩ | ⟨hd, v', -, rfl⟩
  · exact ⟨hdef, hmneg, fun hd => absurd hd hnd, fun hpos _ => hmpos hpos⟩
  · have hpos : ¬ u.p.resynced.tensionFormula u.alpha < 0 := not_lt.mpr hd.2.2.2.le
    refine ⟨hdef, fun hneg => absurd hneg hpos, fun _ => ?_, fun _ hnd => absurd hd hnd⟩
    show (if (u.p.tensionPhase u.alpha u.t).currentOutputMode = 0 then
        (u.p.tensionPhase u.alpha u.t).defaultOutputMode
      else (u.p.tensionPhase u.alpha u.t).currentOutputMode) = _
    rw [hmpos hpos, hdef]

theorem move_ok_mode {w w' : World} (hmove : point.move w = .ok w') :
    ∃ w2, point.computeAcceleration w.advanced = .ok w2 ∧
      w'.p.currentOutputMode = w2.p.currentOutputMode ∧
      w'.p.defaultOutputMode = w2.p.defaultOutputMode := by
  obtain ⟨w2, hc, rfl⟩ := (move_ok_iff w _).mp hmove
  exact ⟨w2, hc, (finalized_frame w2).2.2.2.2.2.2.1, (finalized_frame w2).2.2.2.2.2.2.2.1⟩

/-- C17: over a successful step the current output mode changes in two ways
only. When the tension formula (at the new angle) is negative and the mode
is 2, 4, 10 or 11, it becomes 0; when a collision is detected (the collision
branch of `computeAcceleration` is taken) and the mode is 0, it becomes the
default mode; in every other case it is the mode before the step. -/
theorem C17_output_mode (w w' : World) (hmove : point.move w = .ok w') :
    (w.advanced.p.resynced.tensionFormula w.alpha < 0 ∧
        (w.p.currentOutputMode = 2 ∨ w.p.currentOutputMode = 4 ∨
          w.p.currentOutputMode = 10 ∨ w.p.currentOutputMode = 11) →
        w'.p.currentOutputMode = 0) ∧
      (w.advanced.collisionDetected ∧ w.p.currentOutputMode = 0 →
        w'.p.currentOutputMode = w.p.defaultOutputMode) ∧
      (¬ (w.advanced.p.resynced.tensionFormula w.alpha < 0 ∧
            (w.p.currentOutputMode = 2 ∨ w.p.currentOutputMode = 4 ∨
              w.p.currentOutputMode = 10 ∨ w.p.currentOutputMode = 11)) ∧
          ¬ (w.advanced.collisionDetected ∧ w.p.currentOutputMode = 0) →
        w'.p.currentOutputMode = w.p.currentOutputMode) := by
  obtain ⟨w2, hc, hm, -⟩ := move_ok_mode hmove
  obtain ⟨-, hneg, hdet, hrest⟩ := computeAcceleration_ok_mode hc
  have e1 : w.advanced.p.currentOutputMode = w.p.currentOutputMode := rfl
  have e2 : w.advanced.p.defaultOutputMode = w.p.defaultOutputMode := rfl
  have e3 : w.advanced.alpha = w.alpha := rfl
  rw [e1, e3] at hneg
  rw [e1, e2] at hdet
  rw [e1, e3] at hrest
  rw [hm]
  refine ⟨?_, ?_, ?_⟩
  · rintro ⟨h1, hmode⟩
    rw [hneg h1, if_pos hmode]
  · rintro ⟨hd, h0⟩
    rw [hdet hd, if_pos h0]
  · rintro ⟨hn1, hn2⟩
    by_cases h1 : w.advanced.p.resynced.tensionFormula w.alpha < 0
    · rw [hneg h1, if_neg (fun hmode => hn1 ⟨h1, hmode⟩)]
    · by_cases hd : w.advanced.collisionDetected
      · rw [hdet hd, if_neg (fun h0 => hn2 ⟨hd, h0⟩)]
      · exact hrest h1 hd

/-! ## Position and angle after a step -/

/-- After a successful `move` the position is the advanced one, the angle is
the one `updateTheta` finds for it, and the guard of line 160 did not fire. -/
theorem move_ok_position {w w' : World} (hmove : point.move w = .ok w') :
    w'.p.x = w.advanced.p.x ∧ w'.p.y = w.advanced.p.y ∧
      w'.p.theta = w.advanced.p.toposition.updateTheta.theta ∧ w'.p.r = w.p.r ∧
      ¬ w.advanced.p.dist > w.p.r + w.p.r / 10 := by
  have hpos : (w.advanced.p.tensionPhase w.advanced.alpha w.advanced.t).toposition
      = w.advanced.p.toposition.updateTheta :=
    (tensionPhase_frame _ _ _).1
  have hx := congrArg position.x hpos
  have hy := congrArg position.y hpos
  have hth := congrArg position.theta hpos
  have hr := congrArg position.r hpos
  have hguard : ¬ w.advanced.p.dist > w.p.r + w.p.r / 10 := by
    intro hg
    rcases move_cases w with ⟨-, hm⟩ | ⟨-, -, hm⟩ | ⟨-, v', -, -, hm⟩ | ⟨-, v', -, -, hm⟩
    · rw [hm, if_pos hg] at hmove
      exact Outcome.noConfusion hmove
    · rw [hm] at hmove
      exact Outcome.noConfusion hmove
    · rw [hm] at hmove
      exact Outcome.noConfusion hmove
    · rw [hm, if_pos hg] at hmove
      exact Outcome.noConfusion hmove
  rcases move_ok_cases hmove with ⟨-, rfl⟩ | ⟨-, v', -, rfl⟩
  · have g1 := (finalized_frame (w.advanced.tensioned.sampled w.p.theta)).1
    exact ⟨(congrArg position.x g1).trans hx, (congrArg position.y g1).trans hy,
      (congrArg position.theta g1).trans hth, (congrArg position.r g1).trans hr, hguard⟩
  · have g1 := (finalized_frame ((w.advanced.collided v').sampled w.p.theta)).1
    exact ⟨(congrArg position.x g1).trans hx, (congrArg position.y g1).trans hy,
      (congrArg position.theta g1).trans hth, (congrArg position.r g1).trans hr, hguard⟩

/-- C16 (amended): after every successful `move` (whether it ends taut or
slack) the position and the angle satisfy `x = rho * cos(theta)` and
`y = rho * sin(theta)` with `rho = sqrt(x^2 + y^2)` the distance of the bob from
the origin, and `rho <= r + r/10`; `rho` need not be the string length `r`. -/
theorem C16_polar_consistency (w w' : World) (hmove : point.move w = .ok w') :
    w'.p.x = w'.p.dist * Real.cos w'.p.theta ∧
      w'.p.y = w'.p.dist * Real.sin w'.p.theta ∧
      w'.p.dist ≤ w'.p.r + w'.p.r / 10 := by
  obtain ⟨hx, hy, hth, hr, hg⟩ := move_ok_position hmove
  have hd : w'.p.dist = w.advanced.p.dist := by
    unfold point.dist
    rw [hx, hy]
  have hpol := updateTheta_polar w.advanced.p.toposition
  rw [hd, hth, hr]
  refine ⟨?_, ?_, not_lt.mp hg⟩
  · rw [hx]
    exact hpol.1.symm
  · rw [hy]
    exact hpol.2.symm

/-! ### `wTaut`: a taut step leaves the circle -/

theorem wTaut_advanced_position :
    wTaut.advanced.p.toposition =
      { x := 199 / 200, y := 19 / 200, r := 1, theta := 2 * PI, omega0 := √3 } := by
  simp only [World.advanced, position.update, wTaut]
  norm_num

theorem wTaut_not_detected : ¬ wTaut.advanced.collisionDetected := by
  intro h
  have h0 : (1 : ℝ) = 0 := h.1
  norm_num at h0

theorem wTaut_dist_sq : wTaut.advanced.p.dist * wTaut.advanced.p.dist = 39962 / 40000 := by
  unfold point.dist
  rw [wTaut_advanced_position]
  simp only
  rw [Real.mul_self_sqrt (by norm_num)]
  norm_num

theorem wTaut_dist_bounds : 57 / 200 < wTaut.advanced.p.dist ∧ wTaut.advanced.p.dist < 1 := by
  have hsq := wTaut_dist_sq
  have hnn : 0 ≤ wTaut.advanced.p.dist := Real.sqrt_nonneg _
  constructor
  · by_contra hcon
    have hle := not_lt.mp hcon
    nlinarith
  · by_contra hcon
    have hle := not_lt.mp hcon
    nlinarith

theorem wTaut_guard : ¬ wTaut.advanced.p.dist > wTaut.p.r + wTaut.p.r / 10 := by
  have h := wTaut_dist_bounds.2
  have hr : wTaut.p.r = 1 := rfl
  rw [hr]
  intro hg
  linarith

theorem wTaut_move :
    point.move wTaut = .ok (wTaut.advanced.tensioned.sampled wTaut.p.theta).finalized := by
  rw [move_no_collision_eq wTaut_not_detected, if_neg wTaut_guard]

/-- The sine of the new angle of `wTaut` is below `1/3`. -/
theorem wTaut_sin : Real.sin wTaut.advanced.p.resynced.theta < 1 / 3 := by
  have hpol := (updateTheta_polar wTaut.advanced.p.toposition).2
  have hb := wTaut_dist_bounds.1
  have hy : wTaut.advanced.p.toposition.y = 19 / 200 := by
    rw [wTaut_advanced_position]
  have hd : Real.sqrt (wTaut.advanced.p.toposition.x * wTaut.advanced.p.toposition.x
      + wTaut.advanced.p.toposition.y * wTaut.advanced.p.toposition.y)
      = wTaut.advanced.p.dist := rfl
  rw [hd, hy] at hpol
  have e : wTaut.advanced.p.resynced.theta
      = wTaut.advanced.p.toposition.updateTheta.theta := rfl
  rw [e]
  by_contra hcon
  have hle := not_lt.mp hcon
  have hnn : 0 ≤ wTaut.advanced.p.dist := Real.sqrt_nonneg _
  nlinarith

theorem wTaut_T :
    (wTaut.advanced.tensioned.sampled wTaut.p.theta).finalized.p.T > 0 := by
  have h3 : √3 * √3 = 3 := Real.mul_self_sqrt (by norm_num)
  have hs := wTaut_sin
  rw [(finalized_frame _).2.2.2.1]
  show (wTaut.advanced.p.tensionPhase wTaut.advanced.alpha wTaut.advanced.t).T > 0
  have hform : wTaut.advanced.p.resynced.tensionFormula wTaut.advanced.alpha
      = 1 - 3 * Real.sin wTaut.advanced.p.resynced.theta := by
    unfold point.tensionFormula
    have e : wTaut.advanced.alpha = 3 / 2 * PI := rfl
    have hm : wTaut.advanced.p.resynced.mass = 1 := rfl
    have hr : wTaut.advanced.p.resynced.r = 1 := rfl
    have ho : wTaut.advanced.p.resynced.omega0 = √3 := rfl
    rw [e, sin_three_halves_pi, hm, hr, ho]
    simp only [g]
    linear_combination h3
  rw [tensionPhase_eq]
  simp only
  rw [if_neg (fun h => by have h1 : (1 : ℝ) = 0 := h.2.1; norm_num at h1), hform,
    if_neg (by linarith)]
  linarith

/-- C16 (counterexample): the step of `wTaut` succeeds and ends taut
(`T > 0`), but the bob is at `(199/200, 19/200)`, off the circle of radius
`r = 1`: `x` is not `r * cos(theta)`. -/
theorem C16_counterexample :
    ∃ w', point.move wTaut = .ok w' ∧ w'.p.T > 0 ∧ w'.p.x = 199 / 200 ∧
      w'.p.x ≠ w'.p.r * Real.cos w'.p.theta := by
  refine ⟨_, wTaut_move, wTaut_T, ?_, ?_⟩
  · rw [(move_ok_position wTaut_move).1]
    exact congrArg position.x wTaut_advanced_position
  · obtain ⟨hx, hy, hth, hr, -⟩ := move_ok_position wTaut_move
    have hx' : wTaut.advanced.p.x = 199 / 200 :=
      congrArg position.x wTaut_advanced_position
    have hpol := (updateTheta_polar wTaut.advanced.p.toposition).1
    have hd : Real.sqrt (wTaut.advanced.p.toposition.x * wTaut.advanced.p.toposition.x
        + wTaut.advanced.p.toposition.y * wTaut.advanced.p.toposition.y)
        = wTaut.advanced.p.dist := rfl
    rw [hd] at hpol
    have hx'' : wTaut.advanced.p.toposition.x = 199 / 200 := hx'
    rw [hx''] at hpol
    have hb := wTaut_dist_bounds
    rw [hx, hth, hr, hx']
    have hr1 : wTaut.p.r = 1 := rfl
    rw [hr1, one_mul]
    intro hc
    rw [← hc] at hpol
    nlinarith

/-- C16 (witness): the step of `wTaut`. -/
theorem C16_polar_consistency_witness :
    ∃ w', point.move wTaut = .ok w' ∧ w'.p.x = w'.p.dist * Real.cos w'.p.theta ∧
      w'.p.dist ≤ w'.p.r + w'.p.r / 10 :=
  ⟨_, wTaut_move, (C16_polar_consistency wTaut _ wTaut_move).1,
    (C16_polar_consistency wTaut _ wTaut_move).2.2⟩

/-! ## The launch from the bottom -/

theorem launch_angle_eq : (1.5 : ℝ) * PI = Real.pi / 2 + Real.pi := by
  unfold PI
  norm_num
  ring

theorem sin_launch : Real.sin (1.5 * PI) = -1 := by
  rw [launch_angle_eq, Real.sin_add_pi, Real.sin_pi_div_two]

theorem cos_launch : Real.cos (1.5 * PI) = 0 := by
  rw [launch_angle_eq, Real.cos_add_pi, Real.cos_pi_div_two, neg_zero]

theorem atan2_zero_pos {x : ℝ} (hx : 0 < x) : atan2 0 x = 0 := by
  unfold atan2
  rw [Complex.arg_eq_zero_iff]
  exact ⟨hx.le, rfl⟩

theorem correctDtheta_zero : correctDtheta 0 = 0 := by
  have hpi := PI_gt_three
  have h1 : ¬ ((0 : ℝ) > 2 * PI ∨ (0 : ℝ) + 1e-3 > 2 * PI) := by
    rintro (h | h) <;> norm_num at h <;> linarith
  have h2 : ¬ (-(0 : ℝ) > 2 * PI ∨ -(0 : ℝ) + 1e-3 > 2 * PI) := by
    rintro (h | h) <;> norm_num at h <;> linarith
  unfold correctDtheta
  simp only [if_neg h1, if_neg h2]

/-- The body that the constructor hands to `computeAcceleration` for a launch
from the bottom. -/
theorem launch_entry (l omega m Dt dtheta t : ℝ) (output : Int) (adef : acceleration) :
    (point.ctorEntry l (1.5 * PI) omega m Dt dtheta t output adef).p.toposition
        = { x := 0, y := -l, r := l, theta := 1.5 * PI, omega0 := omega } ∧
      (point.ctorEntry l (1.5 * PI) omega m Dt dtheta t output adef).p.v
        = { x := omega * l, y := 0 } := by
  have hpi := PI_pos
  constructor
  · simp only [point.ctorEntry, position.updateCartesian]
    rw [if_neg (by linarith), sin_launch, cos_launch]
    simp
  · simp only [point.ctorEntry]
    rw [sin_launch, cos_launch]
    simp

theorem launch_theta (l omega m Dt dtheta t : ℝ) (output : Int) (adef : acceleration)
    (hl : 0 < l) :
    (point.ctorEntry l (1.5 * PI) omega m Dt dtheta t output adef).p.resynced.theta
      = 1.5 * PI := by
  have hpi := PI_pos
  have e : (point.ctorEntry l (1.5 * PI) omega m Dt dtheta t output adef).p.resynced.theta
      = (point.ctorEntry l (1.5 * PI) omega m Dt dtheta t output
          adef).p.toposition.updateTheta.theta := rfl
  rw [e, (launch_entry l omega m Dt dtheta t output adef).1]
  unfold position.updateTheta
  simp only
  rw [neg_neg, atan2_zero_pos hl, zero_add, if_neg (by linarith)]

theorem launch_formula (l omega m Dt dtheta t : ℝ) (output : Int) (adef : acceleration)
    (hl : 0 < l) :
    (point.ctorEntry l (1.5 * PI) omega m Dt dtheta t output adef).p.resynced.tensionFormula
        (1.5 * PI) = m * (g + l * omega ^ 2) := by
  unfold point.tensionFormula
  rw [launch_theta l omega m Dt dtheta t output adef hl, sin_launch]
  have hm : (point.ctorEntry l (1.5 * PI) omega m Dt dtheta t output adef).p.resynced.mass
      = m := rfl
  have hr : (point.ctorEntry l (1.5 * PI) omega m Dt dtheta t output adef).p.resynced.r
      = l := rfl
  have ho : (point.ctorEntry l (1.5 * PI) omega m Dt dtheta t output adef).p.resynced.omega0
      = omega := rfl
  rw [hm, hr, ho]
  simp only [g]
  ring

theorem launch_dist (l omega m Dt dtheta t : ℝ) (output : Int) (adef : acceleration)
    (hl : 0 < l) :
    (point.ctorEntry l (1.5 * PI) omega m Dt dtheta t output adef).p.dist = l := by
  unfold point.dist
  have hx := congrArg position.x (launch_entry l omega m Dt dtheta t output adef).1
  have hy := congrArg position.y (launch_entry l omega m Dt dtheta t output adef).1
  simp only at hx hy
  rw [hx, hy]
  rw [zero_mul, zero_add, neg_mul_neg, Real.sqrt_mul_self hl.le]

/-- The constructor's call of `computeAcceleration` for a launch from the
bottom with `t = 0`. -/
theorem launch_computeAcceleration (l omega m Dt dtheta : ℝ) (output : Int)
    (adef : acceleration) (hl : 0 < l) :
    point.computeAcceleration (point.ctorEntry l (1.5 * PI) omega m Dt dtheta 0 output adef)
      = .ok ((point.ctorEntry l (1.5 * PI) omega m Dt dtheta 0 output adef).tensioned.sampled
          (1.5 * PI)) := by
  have hnd : ¬ (point.ctorEntry l (1.5 * PI) omega m Dt dtheta 0 output
      adef).collisionDetected := fun h => h.2.1 rfl
  have hr : (point.ctorEntry l (1.5 * PI) omega m Dt dtheta 0 output adef).p.r = l := rfl
  have hth : (point.ctorEntry l (1.5 * PI) omega m Dt dtheta 0 output adef).p.theta
      = 1.5 * PI :=
    congrArg position.theta (launch_entry l omega m Dt dtheta 0 output adef).1
  rw [computeAcceleration_no_collision_eq hnd, launch_dist l omega m Dt dtheta 0 output adef hl,
    hr, if_neg (by intro h; linarith), hth]

/-- The tension and the output mode stored by the constructor's call of
`computeAcceleration` for a launch from the bottom with `t = 0`. -/
theorem launch_tension (l omega m Dt dtheta : ℝ) (output : Int) (adef : acceleration)
    (hl : 0 < l) (hm : 0 < m) :
    ((point.ctorEntry l (1.5 * PI) omega m Dt dtheta 0 output adef).p.tensionPhase
        (1.5 * PI) 0).T = m * (g + l * omega ^ 2) ∧
      ((point.ctorEntry l (1.5 * PI) omega m Dt dtheta 0 output adef).p.tensionPhase
        (1.5 * PI) 0).currentOutputMode = output ∧
      0 < m * (g + l * omega ^ 2) := by
  have hpos : 0 < m * (g + l * omega ^ 2) := by
    have hg : g = 1 := rfl
    rw [hg]
    have : 0 ≤ l * omega ^ 2 := mul_nonneg hl.le (sq_nonneg omega)
    exact mul_pos hm (by linarith)
  have hf := launch_formula l omega m Dt dtheta 0 output adef hl
  rw [tensionPhase_eq]
  simp only
  rw [if_neg (fun h => h.2.2 rfl), hf, if_neg (not_lt.mpr hpos.le), if_neg (not_lt.mpr hpos.le)]
  exact ⟨rfl, rfl, hpos⟩

/-- The state in which the constructor's call of `computeAcceleration` ends for
a launch from the bottom with `t = 0`. -/
theorem launch_result (l omega m Dt dtheta : ℝ) (output : Int) (adef : acceleration)
    (hl : 0 < l) (hm : 0 < m) (R : World)
    (hR : R = (point.ctorEntry l (1.5 * PI) omega m Dt dtheta 0 output adef).tensioned.sampled
      (1.5 * PI)) :
    R.p.x = 0 ∧ R.p.y = -l ∧ R.p.v = { x := omega * l, y := 0 } ∧ R.p.theta = 1.5 * PI ∧
      R.p.T = m * (g + l * omega ^ 2) ∧ R.p.a1 = { x := 0, y := l * omega ^ 2 } ∧
      R.dtheta = 0 ∧ R.p.numberOfCollisions = 0 ∧ R.p.currentOutputMode = output := by
  obtain ⟨hT, hmode, hpos⟩ := launch_tension l omega m Dt dtheta output adef hl hm
  obtain ⟨f1, f2, f3, f4, f5, f6, f7, f8, f9, f10, f11⟩ :=
    tensionPhase_frame (point.ctorEntry l (1.5 * PI) omega m Dt dtheta 0 output adef).p
      (1.5 * PI) 0
  obtain ⟨he, hv⟩ := launch_entry l omega m Dt dtheta 0 output adef
  have hth := launch_theta l omega m Dt dtheta 0 output adef hl
  have hpos' : ((point.ctorEntry l (1.5 * PI) omega m Dt dtheta 0 output adef).p.tensionPhase
      (1.5 * PI) 0).toposition = { x := 0, y := -l, r := l, theta := 1.5 * PI, omega0 := omega }
        := by
    rw [f1]
    have e : (point.ctorEntry l (1.5 * PI) omega m Dt dtheta 0 output
        adef).p.toposition.updateTheta.theta = 1.5 * PI := hth
    have e2 : (point.ctorEntry l (1.5 * PI) omega m Dt dtheta 0 output
        adef).p.toposition.updateTheta
        = { (point.ctorEntry l (1.5 * PI) omega m Dt dtheta 0 output adef).p.toposition with
            theta := (point.ctorEntry l (1.5 * PI) omega m Dt dtheta 0 output
              adef).p.toposition.updateTheta.theta } := rfl
    rw [e2, e, he]
  have hx := congrArg position.x hpos'
  have hy := congrArg position.y hpos'
  have hth' := congrArg position.theta hpos'
  have hmass : ((point.ctorEntry l (1.5 * PI) omega m Dt dtheta 0 output adef).p.tensionPhase
      (1.5 * PI) 0).mass = m := f5
  have hg : g = 1 := rfl
  have hm0 : m ≠ 0 := ne_of_gt hm
  subst hR
  refine ⟨hx, hy, f2.trans hv, hth', hT, ?_, ?_, f8, hmode⟩
  · have ha : ((point.ctorEntry l (1.5 * PI) omega m Dt dtheta 0 output
        adef).tensioned.sampled (1.5 * PI)).p.a1 =
        { x := (-((point.ctorEntry l (1.5 * PI) omega m Dt dtheta 0 output adef).p.tensionPhase
                (1.5 * PI) 0).T
              * Real.cos ((point.ctorEntry l (1.5 * PI) omega m Dt dtheta 0 output
                adef).p.tensionPhase (1.5 * PI) 0).theta)
              / ((point.ctorEntry l (1.5 * PI) omega m Dt dtheta 0 output adef).p.tensionPhase
                (1.5 * PI) 0).mass
          y := -((point.ctorEntry l (1.5 * PI) omega m Dt dtheta 0 output adef).p.tensionPhase
                (1.5 * PI) 0).T
              * Real.sin ((point.ctorEntry l (1.5 * PI) omega m Dt dtheta 0 output
                adef).p.tensionPhase (1.5 * PI) 0).theta
              / ((point.ctorEntry l (1.5 * PI) omega m Dt dtheta 0 output adef).p.tensionPhase
                (1.5 * PI) 0).mass - g } := rfl
    rw [ha]
    simp only at hth'
    rw [hT, hth', hmass, sin_launch, cos_launch, hg]
    congr 1
    · simp
    · field_simp
  · have hd : ((point.ctorEntry l (1.5 * PI) omega m Dt dtheta 0 output
        adef).tensioned.sampled (1.5 * PI)).dtheta =
        correctDtheta (((point.ctorEntry l (1.5 * PI) omega m Dt dtheta 0 output
          adef).p.tensionPhase (1.5 * PI) 0).theta - 1.5 * PI) := rfl
    simp only at hth'
    rw [hd, hth', sub_self, correctDtheta_zero]

/-- The constructor for a launch from the bottom with `t = 0`: the state it
ends in, and its normal return for an output mode in `0..8`. -/
theorem launch_ctor (l omega m Dt dtheta : ℝ) (output : Int) (adef : acceleration)
    (hl : 0 < l) (hm : 0 < m) :
    (point.ctor l (1.5 * PI) omega m Dt dtheta 0 output adef).state
        = { (point.ctorEntry l (1.5 * PI) omega m Dt dtheta 0 output adef).tensioned.sampled
              (1.5 * PI) with alpha := 1.5 * PI } ∧
      (0 ≤ output ∧ output ≤ 8 →
        point.ctor l (1.5 * PI) omega m Dt dtheta 0 output adef
          = .ok { (point.ctorEntry l (1.5 * PI) omega m Dt dtheta 0 output
                    adef).tensioned.sampled (1.5 * PI) with alpha := 1.5 * PI }) := by
  have hmode := (launch_result l omega m Dt dtheta output adef hl hm _ rfl).2.2.2.2.2.2.2.2
  have hctor : point.ctor l (1.5 * PI) omega m Dt dtheta 0 output adef =
      if ((point.ctorEntry l (1.5 * PI) omega m Dt dtheta 0 output adef).tensioned.sampled
          (1.5 * PI)).p.currentOutputMode ≠ 2 then
        (point.write ((point.ctorEntry l (1.5 * PI) omega m Dt dtheta 0 output
            adef).tensioned.sampled (1.5 * PI)).p 0
          ((point.ctorEntry l (1.5 * PI) omega m Dt dtheta 0 output adef).tensioned.sampled
            (1.5 * PI)).p.dt 0).bind
          (fun _ => .ok
            { (point.ctorEntry l (1.5 * PI) omega m Dt dtheta 0 output adef).tensioned.sampled
                (1.5 * PI) with alpha := 1.5 * PI })
          (fun _ =>
            { (point.ctorEntry l (1.5 * PI) omega m Dt dtheta 0 output adef).tensioned.sampled
                (1.5 * PI) with alpha := 1.5 * PI })
      else .ok
        { (point.ctorEntry l (1.5 * PI) omega m Dt dtheta 0 output adef).tensioned.sampled
            (1.5 * PI) with alpha := 1.5 * PI } := by
    unfold point.ctor
    rw [launch_computeAcceleration l omega m Dt dtheta output adef hl]
    rfl
  constructor
  · rw [hctor]
    unfold point.write
    split_ifs <;> rfl
  · intro hvalid
    rw [hctor]
    unfold point.write
    rw [hmode]
    split_ifs
    · rfl
    · rfl

/-- C15: for `l > 0`, `mass > 0`, any `dt`, `omega0` and output mode, and
`t = 0`, the constructor called with the launch angle `1.5 * PI` leaves the
body at `(0, -l)` with velocity `(omega0 * l, 0)`, perpendicular to the
string, `theta = 1.5 * PI`, tension
`T = mass * (g + l * omega0^2) = mass * g * (1 + gamma) > 0` where
`gamma = omega0^2 * l / g`, newest acceleration `(0, l * omega0^2)`,
`dtheta = 0` and `numberOfCollisions = 0`; with an output mode in `0..8` the
constructor returns normally. -/
theorem C15_launch_from_bottom (l m Dt omega dtheta : ℝ) (output : Int)
    (adef : acceleration) (hl : 0 < l) (hm : 0 < m) :
    ∃ c, (point.ctor l (1.5 * PI) omega m Dt dtheta 0 output adef).state = c ∧
      c.p.x = 0 ∧ c.p.y = -l ∧ c.p.v = { x := omega * l, y := 0 } ∧
      c.p.v.x * c.p.x + c.p.v.y * c.p.y = 0 ∧
      c.p.theta = 1.5 * PI ∧
      c.p.T = m * (g + l * omega ^ 2) ∧
      c.p.T = m * g * (1 + omega ^ 2 * l / g) ∧ 0 < c.p.T ∧
      c.p.a1 = { x := 0, y := l * omega ^ 2 } ∧
      c.dtheta = 0 ∧ c.p.numberOfCollisions = 0 ∧
      (0 ≤ output ∧ output ≤ 8 →
        point.ctor l (1.5 * PI) omega m Dt dtheta 0 output adef = .ok c) := by
  obtain ⟨hstate, hok⟩ := launch_ctor l omega m Dt dtheta output adef hl hm
  obtain ⟨c, hc⟩ : ∃ c : World,
      c = { (point.ctorEntry l (1.5 * PI) omega m Dt dtheta 0 output adef).tensioned.sampled
              (1.5 * PI) with alpha := 1.5 * PI } := ⟨_, rfl⟩
  rw [← hc] at hstate hok
  obtain ⟨hx, hy, hv, hth, hT, ha, hd, hn, -⟩ :=
    launch_result l omega m Dt dtheta output adef hl hm _ rfl
  have hcx : c.p.x = 0 := by rw [hc]; exact hx
  have hcy : c.p.y = -l := by rw [hc]; exact hy
  have hcv : c.p.v = { x := omega * l, y := 0 } := by rw [hc]; exact hv
  have hcth : c.p.theta = 1.5 * PI := by rw [hc]; exact hth
  have hcT : c.p.T = m * (g + l * omega ^ 2) := by rw [hc]; exact hT
  have hca : c.p.a1 = { x := 0, y := l * omega ^ 2 } := by rw [hc]; exact ha
  have hcd : c.dtheta = 0 := by rw [hc]; exact hd
  have hcn : c.p.numberOfCollisions = 0 := by rw [hc]; exact hn
  have hpos := (launch_tension l omega m Dt dtheta output adef hl hm).2.2
  have hg : g = 1 := rfl
  refine ⟨c, hstate, hcx, hcy, hcv, ?_, hcth, hcT, ?_, ?_, hca, hcd, hcn, hok⟩
  · rw [hcv, hcx, hcy]
    simp
  · rw [hcT, hg]
    field_simp
    left
    ring
  · rw [hcT]
    exact hpos

/-- C15 (witness): the scenario `mass = l = g = 1`, `gamma = 3`
(`omega0 = √3`), `dt = 1e-4`: the constructor returns with `T = 4`. -/
theorem C15_launch_from_bottom_witness :
    ∃ c, point.ctor 1 (1.5 * PI) (√3) 1 (1 / 10000) 0 0 0 { x := 0, y := 0 } = .ok c ∧
      c.p.T = 4 := by
  obtain ⟨c, -, -, -, -, -, -, hT, -, -, -, -, -, hok⟩ :=
    C15_launch_from_bottom 1 1 (1 / 10000) (√3) 0 0 { x := 0, y := 0 } (by norm_num)
      (by norm_num)
  refine ⟨c, hok ⟨by decide, by decide⟩, ?_⟩
  have h3 : (√3 : ℝ) ^ 2 = 3 := Real.sq_sqrt (by norm_num)
  rw [hT, h3]
  simp only [g]
  norm_num

/-! ## The output mode along a run -/

theorem computeAcceleration_ok_mode_cases {u u' : World}
    (h : point.computeAcceleration u = .ok u') :
    u'.p.currentOutputMode = 0 ∨ u'.p.currentOutputMode = u.p.currentOutputMode ∨
      u'.p.currentOutputMode = u.p.defaultOutputMode := by
  obtain ⟨-, hneg, hdet, hrest⟩ := computeAcceleration_ok_mode h
  by_cases h1 : u.p.resynced.tensionFormula u.alpha < 0
  · rw [hneg h1]
    split_ifs
    · exact Or.inl rfl
    · exact Or.inr (Or.inl rfl)
  · by_cases hd : u.collisionDetected
    · rw [hdet hd]
      split_ifs
      · exact Or.inr (Or.inr rfl)
      · exact Or.inr (Or.inl rfl)
    · exact Or.inr (Or.inl (hrest h1 hd))

/-- The invalid-output-mode error comes out of `move` only for a current
output mode outside `0..8`. -/
theorem move_exn_invalid {w : World}
    (h : (point.move w).exn = some .invalidOutputMode) :
    ¬ (0 ≤ w.p.currentOutputMode ∧ w.p.currentOutputMode ≤ 8) := by
  rcases move_cases w with ⟨-, hm⟩ | ⟨-, -, hm⟩ | ⟨-, v', -, hmode, -⟩ | ⟨-, v', -, -, hm⟩
  · rw [hm] at h
    split_ifs at h <;> simp [Outcome.exn] at h
  · rw [hm] at h
    simp [Outcome.exn] at h
  · exact hmode
  · rw [hm] at h
    split_ifs at h <;> simp [Outcome.exn] at h

/-- The output modes of a body the constructor returns. -/
theorem ctor_ok_mode {l angle omega m Dt dtheta t : ℝ} {output : Int} {adef : acceleration}
    {c : World} (h : point.ctor l angle omega m Dt dtheta t output adef = .ok c) :
    c.p.defaultOutputMode = output ∧
      (c.p.currentOutputMode = 0 ∨ c.p.currentOutputMode = output) := by
  unfold point.ctor at h
  rcases hc : point.computeAcceleration (point.ctorEntry l angle omega m Dt dtheta t output adef)
    with w2 | ⟨e, w2⟩
  · rw [hc] at h
    simp only [Outcome.bind] at h
    have hcp : c.p = w2.p := by
      split_ifs at h
      · unfold point.write at h
        split_ifs at h
        simp only [Outcome.bind] at h
        injection h with h
        rw [← h]
      · injection h with h
        rw [← h]
    rw [hcp]
    have hdef := (computeAcceleration_ok_mode hc).1
    have hcases := computeAcceleration_ok_mode_cases hc
    have e1 : (point.ctorEntry l angle omega m Dt dtheta t output adef).p.defaultOutputMode
        = output := rfl
    have e2 : (point.ctorEntry l angle omega m Dt dtheta t output adef).p.currentOutputMode
        = output := rfl
    rw [e1] at hdef hcases
    rw [e2] at hcases
    refine ⟨hdef, ?_⟩
    rcases hcases with h0 | h0 | h0
    · exact Or.inl h0
    · exact Or.inr h0
    · exact Or.inr h0
  · rw [hc] at h
    exact Outcome.noConfusion h

/-- A successful `move` keeps the default output mode and leaves the current
one at `0`, at its previous value or at the default one. -/
theorem move_ok_mode_cases {w w' : World} (hmove : point.move w = .ok w') :
    w'.p.defaultOutputMode = w.p.defaultOutputMode ∧
      (w'.p.currentOutputMode = 0 ∨ w'.p.currentOutputMode = w.p.currentOutputMode ∨
        w'.p.currentOutputMode = w.p.defaultOutputMode) := by
  obtain ⟨w2, hc, hm, hd⟩ := move_ok_mode hmove
  rw [hm, hd]
  have h1 : w2.p.defaultOutputMode = w.advanced.p.defaultOutputMode :=
    (computeAcceleration_ok_mode hc).1
  have h2 := computeAcceleration_ok_mode_cases hc
  exact ⟨h1, h2⟩

/-- Along a run the default mode stays and the current mode is `0` or the
default one, once this holds at the start. -/
theorem reached_mode {p0 p : point} (hreach : point.Reached p0 p)
    (h0 : p0.currentOutputMode = 0 ∨ p0.currentOutputMode = p0.defaultOutputMode) :
    p.defaultOutputMode = p0.defaultOutputMode ∧
      (p.currentOutputMode = 0 ∨ p.currentOutputMode = p0.defaultOutputMode) := by
  induction hreach with
  | init => exact ⟨rfl, h0⟩
  | step q dtheta alpha t w' _ hmove ih =>
    obtain ⟨hd, hcases⟩ := move_ok_mode_cases hmove
    have hd' : w'.p.defaultOutputMode = q.defaultOutputMode := hd
    refine ⟨hd'.trans ih.1, ?_⟩
    rcases hcases with h1 | h1 | h1
    · exact Or.inl h1
    · have h1' : w'.p.currentOutputMode = q.currentOutputMode := h1
      rw [h1']
      exact ih.2
    · have h1' : w'.p.currentOutputMode = q.defaultOutputMode := h1
      rw [h1', ih.1]
      exact Or.inr rfl

/-- C19: `write` throws exactly when the current output mode is not one of
`0..8` and leaves the body as it is; and for a body that the constructor
returned for an output mode in `0..8`, after any sequence of successful
`move` calls the default mode is still that mode and the current mode is `0`
or the default mode, so that `write` returns and no call of `move` throws
the invalid-output-mode error. -/
theorem C19_output_mode_invariant :
    (∀ (p : point) (dtheta dt t : ℝ),
      ((p.write dtheta dt t).isOk = false ↔
        ¬ (0 ≤ p.currentOutputMode ∧ p.currentOutputMode ≤ 8)) ∧
      (p.write dtheta dt t).state = p) ∧
    (∀ (l angle omega m Dt dtheta t : ℝ) (output : Int) (adef : acceleration) (c : World),
      0 ≤ output → output ≤ 8 →
      point.ctor l angle omega m Dt dtheta t output adef = .ok c →
      ∀ p : point, point.Reached c.p p →
        (p.currentOutputMode = 0 ∨ p.currentOutputMode = p.defaultOutputMode) ∧
          p.defaultOutputMode = output ∧
          (∀ dtheta' dt' t' : ℝ, (p.write dtheta' dt' t').isOk = true) ∧
          (∀ dtheta' alpha' t' : ℝ,
            (point.move { p := p, dtheta := dtheta', alpha := alpha', t := t' }).exn
              ≠ some .invalidOutputMode)) := by
  constructor
  · intro p dtheta dt t
    unfold point.write
    split_ifs with h
    · exact ⟨⟨fun hf => by simp [Outcome.isOk] at hf, fun hn => absurd h hn⟩, rfl⟩
    · exact ⟨⟨fun _ => h, fun _ => rfl⟩, rfl⟩
  · intro l angle omega m Dt dtheta t output adef c h0 h8 hctor p hreach
    obtain ⟨hcd, hcm⟩ := ctor_ok_mode hctor
    have hstart : c.p.currentOutputMode = 0 ∨ c.p.currentOutputMode = c.p.defaultOutputMode := by
      rw [hcd]
      exact hcm
    obtain ⟨hd, hm⟩ := reached_mode hreach hstart
    rw [hcd] at hd hm
    have hvalid : 0 ≤ p.currentOutputMode ∧ p.currentOutputMode ≤ 8 := by
      rcases hm with hm | hm
      · rw [hm]
        exact ⟨le_refl _, by decide⟩
      · rw [hm]
        exact ⟨h0, h8⟩
    refine ⟨?_, hd, ?_, ?_⟩
    · rw [hd]
      exact hm
    · intro dtheta' dt' t'
      unfold point.write
      rw [if_pos hvalid]
      rfl
    · intro dtheta' alpha' t' hexn
      exact move_exn_invalid hexn hvalid

/-! ## The statements at the concrete inputs -/

theorem wFree_computeAcceleration :
    point.computeAcceleration wFree.advanced
      = .ok (wFree.advanced.tensioned.sampled wFree.advanced.p.theta) := by
  rw [computeAcceleration_no_collision_eq wFree_not_detected]
  exact if_neg wFree_guard

/-- C19 (witness): the body launched from the bottom with output mode `3`. -/
theorem C19_output_mode_invariant_witness :
    ∃ c, point.ctor 1 (1.5 * PI) (√3) 1 (1 / 10000) 0 0 3 { x := 0, y := 0 } = .ok c ∧
      (c.p.write 0 0 0).isOk = true ∧ c.p.defaultOutputMode = 3 :=
  ⟨_, (launch_ctor 1 (√3) 1 (1 / 10000) 0 3 { x := 0, y := 0 } (by norm_num) (by norm_num)).2
      ⟨by decide, by decide⟩,
    (C19_output_mode_invariant.2 1 (1.5 * PI) (√3) 1 (1 / 10000) 0 0 3 { x := 0, y := 0 } _
      (by decide) (by decide)
      ((launch_ctor 1 (√3) 1 (1 / 10000) 0 3 { x := 0, y := 0 } (by norm_num)
        (by norm_num)).2 ⟨by decide, by decide⟩) _ point.Reached.init).2.2.1 0 0 0,
    (C19_output_mode_invariant.2 1 (1.5 * PI) (√3) 1 (1 / 10000) 0 0 3 { x := 0, y := 0 } _
      (by decide) (by decide)
      ((launch_ctor 1 (√3) 1 (1 / 10000) 0 3 { x := 0, y := 0 } (by norm_num)
        (by norm_num)).2 ⟨by decide, by decide⟩) _ point.Reached.init).2.1⟩

/-! ### `wHeld`: the override against a positive formula -/

theorem wHeld_advanced_position :
    wHeld.advanced.p.toposition =
      { x := 0, y := -101 / 200, r := 1, theta := 3 / 2 * PI, omega0 := 2 } := by
  simp only [World.advanced, position.update, wHeld]
  norm_num

theorem wHeld_dist : wHeld.advanced.p.dist = 101 / 200 := by
  unfold point.dist
  rw [wHeld_advanced_position]
  simp only
  have e : (0 : ℝ) * 0 + -101 / 200 * (-101 / 200) = 101 / 200 * (101 / 200) := by norm_num
  rw [e, Real.sqrt_mul_self (by norm_num)]

theorem wHeld_held : wHeld.advanced.p.epsilon > wHeld.p.delta := by
  have hd : wHeld.p.delta = 0 := by
    simp [point.delta, wHeld, velocity.mod]
  have he : wHeld.advanced.p.epsilon = 1 - wHeld.advanced.p.dist := rfl
  rw [hd, he, wHeld_dist]
  norm_num

theorem wHeld_not_detected : ¬ wHeld.advanced.collisionDetected :=
  fun h => h.2.2.1 wHeld_held

theorem wHeld_guard : ¬ wHeld.advanced.p.dist > wHeld.p.r + wHeld.p.r / 10 := by
  rw [wHeld_dist]
  have hr : wHeld.p.r = 1 := rfl
  rw [hr]
  norm_num

theorem wHeld_move :
    point.move wHeld = .ok (wHeld.advanced.tensioned.sampled wHeld.p.theta).finalized := by
  rw [move_no_collision_eq wHeld_not_detected, if_neg wHeld_guard]

/-- At the updated position of `wHeld` the tension formula yields `5`. -/
theorem wHeld_formula : wHeld.advanced.p.resynced.tensionFormula wHeld.alpha = 5 := by
  have hpol := (updateTheta_polar wHeld.advanced.p.toposition).2
  have hd : Real.sqrt (wHeld.advanced.p.toposition.x * wHeld.advanced.p.toposition.x
      + wHeld.advanced.p.toposition.y * wHeld.advanced.p.toposition.y)
      = wHeld.advanced.p.dist := rfl
  have hy : wHeld.advanced.p.toposition.y = -101 / 200 := by
    rw [wHeld_advanced_position]
  rw [hd, wHeld_dist, hy] at hpol
  have hsin : Real.sin wHeld.advanced.p.resynced.theta = -1 := by
    have e : wHeld.advanced.p.resynced.theta
        = wHeld.advanced.p.toposition.updateTheta.theta := rfl
    rw [e]
    linarith
  unfold point.tensionFormula
  have ea : wHeld.alpha = 3 / 2 * PI := rfl
  have hm : wHeld.advanced.p.resynced.mass = 1 := rfl
  have hr : wHeld.advanced.p.resynced.r = 1 := rfl
  have ho : wHeld.advanced.p.resynced.omega0 = 2 := rfl
  rw [hsin, ea, sin_three_halves_pi, hm, hr, ho]
  simp only [g]
  norm_num

/-- C12 (witness): `wHeld` is slack, `t = 1`, `epsilon = 99/200 > delta = 0` and
the tension formula yields `5 > 0`; the step returns with `T = 0`, the count
unchanged and the new sample `(0, -g)`. -/
theorem C12_held_slack_override_witness :
    wHeld.advanced.p.resynced.tensionFormula wHeld.alpha > 0 ∧
      ∃ w', point.move wHeld = .ok w' ∧ w'.p.T = 0 ∧
        w'.p.numberOfCollisions = wHeld.p.numberOfCollisions ∧
        w'.p.a1 = { x := 0, y := -g } :=
  ⟨by rw [wHeld_formula]; norm_num, _, wHeld_move,
    (C12_held_slack_override wHeld rfl (by show (1 : ℝ) ≠ 0; norm_num) wHeld_held).2.2.1 _
      wHeld_move⟩

/-! ### `wBack`: a held-slack call that throws -/

theorem wBack_advanced_position :
    wBack.advanced.p.toposition =
      { x := 2, y := 0, r := 1, theta := 2 * PI, omega0 := 2 } := by
  simp only [World.advanced, position.update, wBack]
  norm_num

theorem wBack_dist : wBack.advanced.p.dist = 2 := by
  unfold point.dist
  rw [wBack_advanced_position]
  simp only
  rw [mul_zero, add_zero, Real.sqrt_mul_self (by norm_num)]

theorem wBack_delta : wBack.p.delta = -(3 / 2) := by
  have hm : wBack.p.v.mod = 15 := by
    have h := mod_of_sq wBack.p.v 15 (by norm_num [wBack])
    rw [h]
    exact abs_of_pos (by norm_num)
  unfold point.delta
  rw [hm]
  norm_num [wBack]

theorem wBack_held : wBack.advanced.p.epsilon > wBack.p.delta := by
  have he : wBack.advanced.p.epsilon = 1 - wBack.advanced.p.dist := rfl
  rw [wBack_delta, he, wBack_dist]
  norm_num

theorem wBack_move :
    point.move wBack =
      .thrown .threadBroken
        { wBack.advanced.tensioned with
          dtheta := correctDtheta (wBack.advanced.tensioned.p.theta - wBack.p.theta) } := by
  have hnd : ¬ wBack.advanced.collisionDetected := fun h => h.2.2.1 wBack_held
  have hg : wBack.advanced.p.dist > wBack.p.r + wBack.p.r / 10 := by
    rw [wBack_dist]
    have hr : wBack.p.r = 1 := rfl
    rw [hr]
    norm_num
  rw [move_no_collision_eq hnd, if_pos hg]

/-- C12 (counterexample): `wBack` enters `computeAcceleration` with previous
tension `0`, `t = 1` and `epsilon = -1 > delta = -3/2`, but `move` throws the
broken-thread error at the guard of line 160, before a new sample is stored:
`a[1]` is still `(0, 0)`, not `(0, -g)`. -/
theorem C12_counterexample :
    wBack.p.T = 0 ∧ wBack.t ≠ 0 ∧ wBack.advanced.p.epsilon > wBack.p.delta ∧
      (point.move wBack).isOk = false ∧
      (point.move wBack).state.p.a1 = { x := 0, y := 0 } ∧
      (point.move wBack).state.p.a1 ≠ { x := 0, y := -g } := by
  have ha : (point.move wBack).state.p.a1 = { x := 0, y := 0 } := by
    rw [wBack_move]
    exact (tensionPhase_frame wBack.advanced.p wBack.advanced.alpha wBack.advanced.t).2.2.2.1
  refine ⟨rfl, by show (1 : ℝ) ≠ 0; norm_num, wBack_held, by rw [wBack_move]; rfl, ha, ?_⟩
  rw [ha]
  intro h
  have hy := congrArg acceleration.y h
  simp [g] at hy

/-! ### `wWrap`: a step across the jump of the angle -/

/-- A position in the upper right quadrant has its angle in `(0, π/2]`: the
shifted `atan2` value exceeds `2π` and is brought back by one turn. -/
theorem updateTheta_quadrant1 (s : position) (hx : 0 < s.x) (hy : 0 < s.y) :
    0 < s.updateTheta.theta ∧ s.updateTheta.theta ≤ PI / 2 := by
  have hpi := PI_pos
  have h1 := (atan2_mem s.x (-s.y)).2
  have h2 : PI / 2 < atan2 s.x (-s.y) := by
    by_contra hcon
    have hle : Complex.arg ⟨-s.y, s.x⟩ ≤ Real.pi / 2 := not_lt.mp hcon
    rw [Complex.arg_le_pi_div_two_iff] at hle
    simp only at hle
    rcases hle with hle | hle <;> linarith
  unfold position.updateTheta
  simp only
  rw [if_pos (by linarith)]
  constructor <;> linarith

theorem wWrap_advanced_position :
    wWrap.advanced.p.toposition =
      { x := 199999999 / 200000000, y := 19999 / 200000000, r := 1, theta := 2 * PI,
        omega0 := √3 } := by
  simp only [World.advanced, position.update, wWrap, wTaut]
  norm_num

theorem wWrap_not_detected : ¬ wWrap.advanced.collisionDetected := by
  intro h
  have h0 : (1 : ℝ) = 0 := h.1
  norm_num at h0

theorem wWrap_dist_bounds : 1 / 2 < wWrap.advanced.p.dist ∧ wWrap.advanced.p.dist < 1 := by
  have hsq : wWrap.advanced.p.dist * wWrap.advanced.p.dist
      = 199999999 / 200000000 * (199999999 / 200000000)
        + 19999 / 200000000 * (19999 / 200000000) := by
    unfold point.dist
    rw [wWrap_advanced_position]
    simp only
    rw [Real.mul_self_sqrt (by norm_num)]
  have hnn : 0 ≤ wWrap.advanced.p.dist := Real.sqrt_nonneg _
  constructor
  · by_contra hcon
    have hle := not_lt.mp hcon
    nlinarith
  · by_contra hcon
    have hle := not_lt.mp hcon
    nlinarith

theorem wWrap_computeAcceleration :
    point.computeAcceleration wWrap.advanced
      = .ok (wWrap.advanced.tensioned.sampled wWrap.advanced.p.theta) := by
  have hg : ¬ wWrap.advanced.p.dist > wWrap.advanced.p.r + wWrap.advanced.p.r / 10 := by
    have h := wWrap_dist_bounds.2
    have hr : wWrap.advanced.p.r = 1 := rfl
    rw [hr]
    intro hg
    linarith
  rw [computeAcceleration_no_collision_eq wWrap_not_detected, if_neg hg]

/-- The new angle of `wWrap` lies in `(0, 0.001)`, the previous one is `2π`. -/
theorem wWrap_theta :
    0 < (wWrap.advanced.tensioned.sampled wWrap.advanced.p.theta).p.theta ∧
      (wWrap.advanced.tensioned.sampled wWrap.advanced.p.theta).p.theta < 0.001 := by
  have hpi := PI_gt_three
  have e : (wWrap.advanced.tensioned.sampled wWrap.advanced.p.theta).p.theta
      = wWrap.advanced.p.toposition.updateTheta.theta := by
    show (wWrap.advanced.p.tensionPhase wWrap.advanced.alpha wWrap.advanced.t).theta = _
    rw [tensionPhase_eq]
    rfl
  rw [e]
  have hx : wWrap.advanced.p.toposition.x = 199999999 / 200000000 := by
    rw [wWrap_advanced_position]
  have hy : wWrap.advanced.p.toposition.y = 19999 / 200000000 := by
    rw [wWrap_advanced_position]
  obtain ⟨h0, h1⟩ := updateTheta_quadrant1 wWrap.advanced.p.toposition
    (by rw [hx]; norm_num) (by rw [hy]; norm_num)
  refine ⟨h0, ?_⟩
  have hpol := (updateTheta_polar wWrap.advanced.p.toposition).2
  have hd : Real.sqrt (wWrap.advanced.p.toposition.x * wWrap.advanced.p.toposition.x
      + wWrap.advanced.p.toposition.y * wWrap.advanced.p.toposition.y)
      = wWrap.advanced.p.dist := rfl
  rw [hd, hy] at hpol
  have hb := wWrap_dist_bounds.1
  by_contra hcon
  have hle : (1 / 1000 : ℝ) ≤ wWrap.advanced.p.toposition.updateTheta.theta := by
    have := not_lt.mp hcon
    norm_num at this
    linarith
  have hmono : Real.sin (1 / 1000) ≤ Real.sin wWrap.advanced.p.toposition.updateTheta.theta :=
    Real.sin_le_sin_of_le_of_le_pi_div_two (by linarith [Real.pi_pos]) h1 hle
  have hcube := @Real.sin_gt_sub_cube (1 / 1000) (by norm_num) (by norm_num)
  have hsin : (9 / 10000 : ℝ) ≤ Real.sin wWrap.advanced.p.toposition.updateTheta.theta := by
    have : (9 / 10000 : ℝ) ≤ 1 / 1000 - (1 / 1000) ^ 3 / 4 := by norm_num
    linarith
  have hprod : (1 / 2 : ℝ) * (9 / 10000)
      ≤ wWrap.advanced.p.dist * Real.sin wWrap.advanced.p.toposition.updateTheta.theta :=
    mul_le_mul hb.le hsin (by norm_num) (by linarith)
  rw [hpol] at hprod
  norm_num at hprod

/-- C13 (witness): the step of `wWrap` takes the angle from `2π` to a value in
`(0, 0.001)`: the raw difference is within `0.001` of `-2π`, the stored
`dtheta` is the raw difference plus `2π`, of magnitude below `0.001`. -/
theorem C13_angle_delta_correction_witness :
    ∃ u', point.computeAcceleration wWrap.advanced = .ok u' ∧
      wWrap.advanced.p.theta = 2 * PI ∧
      2 * PI - 0.001 < |u'.p.theta - wWrap.advanced.p.theta| ∧
      u'.dtheta = u'.p.theta - wWrap.advanced.p.theta + 2 * PI ∧
      |u'.dtheta| < 0.001 := by
  have hpi := PI_gt_three
  have hold : wWrap.advanced.p.theta = 2 * PI := rfl
  obtain ⟨h0, h1⟩ := wWrap_theta
  have hraw : 2 * PI - 0.001
      < |(wWrap.advanced.tensioned.sampled wWrap.advanced.p.theta).p.theta
          - wWrap.advanced.p.theta| := by
    rw [abs_of_neg (by linarith)]
    linarith
  obtain ⟨-, hcases, -, -, hnear⟩ :=
    C13_angle_delta_correction wWrap.advanced _ wWrap_computeAcceleration
      ⟨by rw [hold]; linarith, by rw [hold]⟩
  have hsmall := hnear hraw
  refine ⟨_, wWrap_computeAcceleration, hold, hraw, ?_, hsmall⟩
  rw [abs_lt] at hsmall
  rcases hcases with hc | hc | hc
  · linarith [hsmall.1]
  · linarith [hsmall.1]
  · exact hc

/-! ### `wSuppress` and `wRestore`: the output mode changed by a step -/

/-- At the updated position of `wFree` the tension formula yields `-1`. -/
theorem wFree_formula : wFree.advanced.p.resynced.tensionFormula wFree.alpha = -1 := by
  have hpol := (updateTheta_polar wFree.advanced.p.toposition).2
  have hy : wFree.advanced.p.toposition.y = 99 / 200 := by
    rw [wFree_advanced_position]
  have hx : wFree.advanced.p.toposition.x = 0 := by
    rw [wFree_advanced_position]
  rw [hx, hy] at hpol
  rw [zero_mul, zero_add, Real.sqrt_mul_self (by norm_num)] at hpol
  have hsin : Real.sin wFree.advanced.p.resynced.theta = 1 := by
    have e : wFree.advanced.p.resynced.theta
        = wFree.advanced.p.toposition.updateTheta.theta := rfl
    rw [e]
    linarith
  unfold point.tensionFormula
  have ea : wFree.alpha = 3 / 2 * PI := rfl
  have hm : wFree.advanced.p.resynced.mass = 1 := rfl
  have hr : wFree.advanced.p.resynced.r = 1 := rfl
  have ho : wFree.advanced.p.resynced.omega0 = 2 := rfl
  rw [hsin, ea, sin_three_halves_pi, hm, hr, ho]
  simp only [g]
  norm_num

theorem wSuppress_formula :
    wSuppress.advanced.p.resynced.tensionFormula wSuppress.alpha < 0 := by
  have h : wSuppress.advanced.p.resynced.tensionFormula wSuppress.alpha = -1 := wFree_formula
  rw [h]
  norm_num

theorem wSuppress_move :
    point.move wSuppress
      = .ok (wSuppress.advanced.tensioned.sampled wSuppress.p.theta).finalized := by
  have hnd : ¬ wSuppress.advanced.collisionDetected := wFree_not_detected
  have hg : ¬ wSuppress.advanced.p.dist > wSuppress.p.r + wSuppress.p.r / 10 := wFree_guard
  rw [move_no_collision_eq hnd, if_neg hg]

theorem wRestore_detected : wRestore.advanced.collisionDetected := wHit_detected

theorem wRestore_move :
    point.move wRestore =
      .ok ((wRestore.advanced.collided { x := -6 / 25, y := -8 / 25 }).sampled
        wRestore.p.theta).finalized :=
  move_collision_eq wRestore_detected wHit_projection (by decide) wHit_guard

/-- C17 (witness): the step of `wSuppress` finds the formula negative in mode `2`
and returns in mode `0`; the step of `wRestore` is a collision in mode `0`
and returns in the default mode `2`. -/
theorem C17_output_mode_witness :
    (wSuppress.p.currentOutputMode = 2 ∧
        ∃ w', point.move wSuppress = .ok w' ∧ w'.p.currentOutputMode = 0) ∧
      (wRestore.p.currentOutputMode = 0 ∧ wRestore.p.defaultOutputMode = 2 ∧
        ∃ w', point.move wRestore = .ok w' ∧ w'.p.currentOutputMode = 2) :=
  ⟨⟨rfl, _, wSuppress_move,
      (C17_output_mode wSuppress _ wSuppress_move).1 ⟨wSuppress_formula, Or.inl rfl⟩⟩,
    ⟨rfl, rfl, _, wRestore_move,
      (C17_output_mode wRestore _ wRestore_move).2.1 ⟨wRestore_detected, rfl⟩⟩⟩

end

end VelocityVerlet
